import Mathlib

/-!
Shallow embedding of the payroll record-keeping HTTP service in `src/app.py`
(`api-payslip_v2`), together with theorems settling the frozen claims about it.

The relational store is modelled as an explicit `DB` value: lists of rows for
the `employees`, `salary_sheets`, `salary_items` and `salary_item_meta` tables,
plus the autoincrement counters.  Each HTTP handler becomes a pure function
from a `DB` (and the request data) to a `DB` and a response value.  The
SQLAlchemy session is modelled where it matters (the Excel import) as a pair
of database states, `committed` and `cur` (the session's view): `commit` copies
`cur` into `committed`, a rollback discards `cur` and keeps `committed`.
Monetary amounts are modelled as `Rat` (the code stores `DECIMAL(14,2)` and
converts through Python floats); timestamps are modelled as UTC instants
(`Int`), since only their ordering is ever used by the handlers.
-/

namespace Payslip

/-- The `item_group` enum of `salary_items` / `salary_item_meta`:
`Enum("earnings", "deductions", "summary")`. -/
inductive Group where
  | earnings
  | deductions
  | summary
deriving DecidableEq, Repr

/-- A row of the `employees` table (app.py, class `Employee`).
`created_at` is never read by any handler and is omitted. -/
structure Employee where
  employee_id : Nat
  emp_code : String
  full_name : String
  status_name : String
deriving DecidableEq, Repr

/-- A row of the `salary_sheets` table (app.py, class `SalarySheet`).
The activation window bounds are UTC instants; `none` models SQL `NULL`. -/
structure SalarySheet where
  sheet_id : Nat
  month_year : String
  api_active_from : Option Int
  api_active_to : Option Int
  api_is_active : Bool
deriving DecidableEq, Repr

/-- A row of the `salary_items` table (app.py, class `SalaryItem`).
The autoincrement `item_id` is never read by any handler and is omitted;
rows are kept in insertion order in the `DB.items` list. -/
structure SalaryItem where
  sheet_id : Nat
  employee_id : Nat
  item_group : Group
  item_name : String
  amount : Rat
deriving DecidableEq, Repr

/-- The durable database state: the four tables used by the handlers under
verification, plus the autoincrement counters for employees and sheets.
`meta` is the `salary_item_meta` whitelist as (item_name, item_group) pairs
(`item_name` carries a UNIQUE constraint; lookups take the first match). -/
structure DB where
  employees : List Employee
  sheets : List SalarySheet
  items : List SalaryItem
  meta : List (String × Group)
  nextEmpId : Nat
  nextSheetId : Nat
deriving DecidableEq, Repr

/-- Lookup in the metadata whitelist (`meta_map = {item_name: item_group}`);
`item_name` is UNIQUE, so first match is the dict entry. -/
def metaLookup (meta : List (String × Group)) (n : String) : Option Group :=
  (meta.find? (fun p => p.1 = n)).map (fun p => p.2)

/-- Lookup of an employee id by code, with Python-dict semantics
(`{e.emp_code: e.employee_id for e in emp_rows}`: a later row wins). -/
def empIdOf (es : List Employee) (code : String) : Option Nat :=
  (es.reverse.find? (fun e => e.emp_code = code)).map (fun e => e.employee_id)

/-- The (sheet_id, employee_id) pair a delete-then-insert replace targets. -/
def itKey (it : SalaryItem) : Nat × Nat := (it.sheet_id, it.employee_id)

/-- The composite logical key (sheet_id, employee_id, item_name) of a line
item, per the spec's invariant. -/
def itTriple (it : SalaryItem) : Nat × Nat × String :=
  (it.sheet_id, it.employee_id, it.item_name)

/-- The spec's invariant on the store: at most one `salary_items` row per
(sheet_id, employee_id, item_name) triple. -/
def InvDB (db : DB) : Prop := (db.items.map itTriple).Nodup

instance (db : DB) : Decidable (InvDB db) := by
  unfold InvDB; infer_instance

/-! ### Fixed-point decimal rendering

`f"{float(i.amount):.2f}"`: render with exactly two decimals.  Modelled on the
exact rational amount; rounding is to the nearest hundredth, ties to even
(the rounding Python's fixed-point format applies to the float value). -/

/-- Nearest integer to `q * 100`, ties to even, computed on the numerator and
denominator (`ediv`/`emod` floor the quotient since the denominator is
positive). -/
def round2 (q : Rat) : Int :=
  let n := q.num * 100
  let d := (q.den : Int)
  let f := Int.ediv n d
  let r := Int.emod n d
  if 2 * r < d then f
  else if d < 2 * r then f + 1
  else if f % 2 = 0 then f else f + 1

/-- Zero-pad a two-digit fraction. -/
def pad2 (n : Nat) : String :=
  if n < 10 then "0" ++ toString n else toString n

/-- Fixed two-decimal rendering of an amount, modelling `f"{x:.2f}"`. -/
def fmt2 (q : Rat) : String :=
  let n := round2 q
  let s := n.natAbs
  (if n < 0 then "-" else "") ++ toString (s / 100) ++ "." ++ pad2 (s % 100)

/-! ### Thai month normalisation (upload_excel, lines 319-342)

`df["Sheet"]` cells are stringified, whitespace is stripped
(`.str.replace(r"\s+", "", regex=True)`), then split by the regex
`^(\D+)(\d{4})$` into a non-digit prefix part and a four-digit year; the
prefix part is mapped through `prefix_map` with fallback to itself
(`.map(prefix_map).fillna(df["prefix"])`) and re-concatenated with the year.
Cells that do not match the regex get NaN from `str.extract`, and
NaN + "nan" propagates NaN through the object-dtype addition, so the cell
becomes missing — modelled as `none`. -/

/-- The fixed 12-entry Thai month abbreviation table (`prefix_map`). -/
def preMap : List (String × String) :=
  [("ม.ค.", "January"), ("ก.พ.", "February"), ("มี.ค.", "March"),
   ("เม.ย.", "April"), ("พ.ค.", "May"), ("มิ.ย.", "June"),
   ("ก.ค.", "July"), ("ส.ค.", "August"), ("ก.ย.", "September"),
   ("ต.ค.", "October"), ("พ.ย.", "November"), ("ธ.ค.", "December")]

/-- Lookup in `prefix_map`. -/
def preMapLookup (p : String) : Option String :=
  (preMap.find? (fun q => q.1 = p)).map (fun q => q.2)

/-- `str.replace(r"\s+", "", regex=True)`: delete every whitespace char. -/
def stripWs (s : String) : String :=
  ⟨s.data.filter (fun c => !c.isWhitespace)⟩

/-- The regex `^(\D+)(\d{4})$`: a non-empty all-non-digit part followed by
exactly four digits.  Returns the two capture groups on a match. -/
def matchPreYear (s : String) : Option (String × String) :=
  let cs := s.data
  let n := cs.length
  if 5 ≤ n then
    let p := cs.take (n - 4)
    let y := cs.drop (n - 4)
    if y.all (fun c => c.isDigit) && p.all (fun c => !c.isDigit) then
      some (⟨p⟩, ⟨y⟩)
    else none
  else none

/-- The per-cell "Sheet" column transform of `upload_excel`: strip whitespace,
split with `^(\D+)(\d{4})$`, map the prefix part through the table with
fallback to itself, re-append the year.  `none` models the NaN a
non-matching cell ends up as. -/
def sheetCellTransform (s : String) : Option String :=
  match matchPreYear (stripWs s) with
  | some (p, y) => some ((preMapLookup p).getD p ++ y)
  | none => none

/-! ### GET /salary_data/data (app.py lines 175-215)

Reads are keyed by `month-year` and `emp_id`; a missing sheet or employee and
a query outside the activation window both answer with the empty JSON list and
status 200; inside the window the handler groups the stored items into the
three buckets and formats amounts with two decimals.  The `api_is_active` flag
is never consulted on this path. -/

/-- Dict assignment `d[k] = v`: replace in place if the key exists (Python
dicts keep insertion position on update), append otherwise. -/
def dictUpsert {α β : Type} [DecidableEq α] (l : List (α × β)) (k : α) (v : β) :
    List (α × β) :=
  if l.any (fun p => p.1 = k) then
    l.map (fun p => if p.1 = k then (k, v) else p)
  else l ++ [(k, v)]

/-- First-match association lookup (Python dict read on unique keys). -/
def dictGet {α β : Type} [DecidableEq α] (l : List (α × β)) (k : α) : Option β :=
  (l.find? (fun p => p.1 = k)).map (fun p => p.2)

/-- `grouped = {"earnings": {}, ...}; for i in items:
grouped[i.item_group][i.item_name] = f"{float(i.amount):.2f}"` — modelled as a
single association list keyed by (bucket, item_name). -/
def buildGrouped (items : List SalaryItem) : List ((Group × String) × String) :=
  items.foldl (fun acc it => dictUpsert acc (it.item_group, it.item_name) (fmt2 it.amount)) []

/-- Response of GET /salary_data/data.  `.empty` is `jsonify([])` with status
200 (used both for a missing sheet/employee and for a query outside the
activation window); `.found` is the one-element payload list. -/
inductive GetResult where
  | badRequest
  | empty
  | found (monthYear empCode fullName statusName : String)
      (grouped : List ((Group × String) × String))
deriving DecidableEq, Repr

/-- The stored line items of one (sheet, employee) pair. -/
def itemsFor (db : DB) (sid eid : Nat) : List SalaryItem :=
  db.items.filter (fun it => decide (it.sheet_id = sid ∧ it.employee_id = eid))

/-- The GET branch of `salary_data` (app.py lines 175-215).  `now` is the UTC
instant `now_utc()` returns during the request. -/
def salaryDataGet (db : DB) (now : Int) (month empCode : String) : GetResult :=
  if month = "" ∨ empCode = "" then .badRequest
  else
    match db.sheets.find? (fun s => s.month_year = month),
          db.employees.find? (fun e => e.emp_code = empCode) with
    | some sheet, some emp =>
        if (sheet.api_active_from.map (fun f => decide (now < f))).getD false then .empty
        else if (sheet.api_active_to.map (fun t => decide (t < now))).getD false then .empty
        else
          .found sheet.month_year emp.emp_code emp.full_name emp.status_name
            (buildGrouped (itemsFor db sheet.sheet_id emp.employee_id))
    | _, _ => .empty

/-! ### POST /salary_data/data (app.py lines 217-269)

The single-employee upsert: resolve-or-create the sheet, upsert the employee
by code (`INSERT ... ON DUPLICATE KEY UPDATE full_name, status_name`), delete
the (sheet, employee) line items, re-insert from the request's `datalist`
(skipping values `float()` rejects), with the whitelist overriding the
caller-supplied bucket, then one commit.  The activation window is never
consulted.  A `datalist` value is modelled post-`float()`: `none` for an
unparseable value. -/

inductive PostResult where
  | badRequest
  | created
deriving DecidableEq, Repr

/-- The re-inserted line items of the POST upsert: one per parseable value of
the nested `datalist`, with the whitelist overriding the caller's bucket
(`meta_map.get(name, group)`). -/
def postItems (meta : List (String × Group)) (sid eid : Nat)
    (datalist : List (Group × List (String × Option Rat))) : List SalaryItem :=
  datalist.flatMap (fun gl =>
    gl.2.filterMap (fun nv =>
      nv.2.map (fun amount =>
        ⟨sid, eid, (metaLookup meta nv.1).getD gl.1, nv.1, amount⟩)))

/-- The POST branch of `salary_data`.  `datalist` is the request's nested
dict: one entry per bucket with its (item_name, parsed value) pairs. -/
def salaryDataPost (db : DB) (month empCode fullName status : String)
    (datalist : List (Group × List (String × Option Rat))) : DB × PostResult :=
  if month = "" ∨ empCode = "" then (db, .badRequest)
  else
    let sheet : SalarySheet :=
      match db.sheets.find? (fun s => s.month_year = month) with
      | some s => s
      | none => ⟨db.nextSheetId, month, none, none, false⟩
    let db1 : DB :=
      match db.sheets.find? (fun s => s.month_year = month) with
      | some _ => db
      | none => { db with sheets := db.sheets ++ [sheet],
                          nextSheetId := db.nextSheetId + 1 }
    let db2 : DB :=
      if db1.employees.any (fun e => e.emp_code = empCode) then
        { db1 with employees := db1.employees.map (fun e =>
            if e.emp_code = empCode then
              { e with full_name := fullName, status_name := status } else e) }
      else
        { db1 with
            employees := db1.employees ++
              [⟨db1.nextEmpId, empCode, fullName, status⟩],
            nextEmpId := db1.nextEmpId + 1 }
    match empIdOf db2.employees empCode with
    | none => (db, .badRequest)
    | some eid =>
      let db3 := { db2 with items := db2.items.filter (fun it =>
        !(decide (it.sheet_id = sheet.sheet_id ∧ it.employee_id = eid))) }
      ({ db3 with items := db3.items ++ postItems db.meta sheet.sheet_id eid datalist },
       .created)

/-! ### PATCH /salary_sheets/api-window (app.py lines 584-663)

Partial update of a sheet's activation window.  Timestamps are modelled
already parsed and converted to UTC: a body field is `none` when absent,
`some none` when present but malformed (`datetime.fromisoformat` raises →
per-field 400 before the commit, so the durable state is unchanged), and
`some (some t)` for a valid instant `t`. -/

structure PatchBody where
  sheet_id : Option Nat
  api_is_active : Option Bool
  api_active_from : Option (Option Int)
  api_active_to : Option (Option Int)
deriving DecidableEq, Repr

inductive PatchResult where
  | badRequest
  | notFound
  | badFrom
  | badTo
  | ok (sheet_id : Nat) (api_is_active : Bool)
      (api_active_from api_active_to : Option Int)
deriving DecidableEq, Repr

/-- The field application of `set_api_window`: set the flag if supplied, then
each bound if supplied and well formed (only the supplied fields change). -/
def updSheet (body : PatchBody) (s : SalarySheet) : SalarySheet :=
  let s1 := match body.api_is_active with
    | some b => { s with api_is_active := b }
    | none => s
  let s2 := match body.api_active_from with
    | some (some t) => { s1 with api_active_from := some t }
    | _ => s1
  match body.api_active_to with
  | some (some v) => { s2 with api_active_to := some v }
  | _ => s2

/-- `set_api_window`: apply the supplied fields in order, aborting without a
commit on a malformed timestamp (so the durable state is unchanged), and
commit at the end.  (`if not sheet_id` also rejects the falsy id 0.) -/
def setApiWindow (db : DB) (body : PatchBody) : DB × PatchResult :=
  match body.sheet_id with
  | none => (db, .badRequest)
  | some sid =>
    if sid = 0 then (db, .badRequest)
    else
      match db.sheets.find? (fun s => s.sheet_id = sid) with
      | none => (db, .notFound)
      | some s =>
        if body.api_active_from = some none then (db, .badFrom)
        else if body.api_active_to = some none then (db, .badTo)
        else
          let s3 := updSheet body s
          ({ db with sheets := db.sheets.map (fun x =>
               if x.sheet_id = sid then s3 else x) },
           .ok s3.sheet_id s3.api_is_active s3.api_active_from s3.api_active_to)

/-! ### GET /salary_data/export (app.py lines 786-882)

Pivot export: join the period's line items with their employees, build one row
per employee with one column per distinct item name (`pivot_table` with
`aggfunc="sum", fill_value=0`), then append the earnings subtotal, deductions
subtotal and their difference.  The spreadsheet styling (bold header, column
widths) carries no data and is not modelled. -/

/-- First-occurrence deduplication (the distinct values of a column). -/
def dedup (l : List String) : List String :=
  l.foldl (fun acc s => if s ∈ acc then acc else acc ++ [s]) []

/-- One row of the exported pivot table. -/
structure PivotRow where
  emp_code : String
  full_name : String
  status_name : String
  cells : List (String × Rat)
  totalEarnings : Rat
  totalDeductions : Rat
  netPay : Rat
deriving DecidableEq, Repr

inductive ExportResult where
  | badRequest
  | sheetNotFound
  | noData
  | file (rows : List PivotRow)
deriving DecidableEq, Repr

/-- The employee–item join rows of `export_salary_month_pivot` (inner join on
`employee_id`, filtered to the sheet). -/
def exportJoin (db : DB) (sid : Nat) : List (Employee × SalaryItem) :=
  (db.items.filter (fun it => it.sheet_id = sid)).filterMap (fun it =>
    (db.employees.find? (fun e => e.employee_id = it.employee_id)).map (fun e => (e, it)))

/-- The pivot cell for one employee and item name: the sum of that employee's
amounts under the name (`aggfunc="sum"`), 0 when there are none
(`fill_value=0` / a column the employee has no row for). -/
def pivotCell (rows : List (Employee × SalaryItem)) (eid : Nat) (n : String) : Rat :=
  ((rows.filter (fun r => decide (r.1.employee_id = eid ∧ r.2.item_name = n))).map
    (fun r => r.2.amount)).sum

/-- The distinct item names a bucket contributes for the period
(`df[df["หมวดหมู่"] == g]["รายการ"].unique()`). -/
def joinNamesOfGroup (db : DB) (sid : Nat) (g : Group) : List String :=
  dedup (((exportJoin db sid).filter (fun r => r.2.item_group = g)).map
    (fun r => r.2.item_name))

/-- The pivot rows: one per employee seen in the join, with one cell per
distinct item name, the two subtotals and the net. -/
def exportRows (db : DB) (sid : Nat) : List PivotRow :=
  let rows := exportJoin db sid
  let names := dedup (rows.map (fun r => r.2.item_name))
  let earningsNames := joinNamesOfGroup db sid Group.earnings
  let deductionsNames := joinNamesOfGroup db sid Group.deductions
  let emps := (dedup (rows.map (fun r => r.1.emp_code))).filterMap
    (fun c => db.employees.find? (fun e => e.emp_code = c))
  emps.map (fun e =>
    let te := (earningsNames.map (pivotCell rows e.employee_id)).sum
    let td := (deductionsNames.map (pivotCell rows e.employee_id)).sum
    { emp_code := e.emp_code, full_name := e.full_name,
      status_name := e.status_name,
      cells := names.map (fun n => (n, pivotCell rows e.employee_id n)),
      totalEarnings := te, totalDeductions := td, netPay := te - td })

/-- `export_salary_month_pivot`. -/
def exportSalaryMonthPivot (db : DB) (month : String) : ExportResult :=
  if month = "" then .badRequest
  else
    match db.sheets.find? (fun s => s.month_year = month) with
    | none => .sheetNotFound
    | some sheet =>
      if exportJoin db sheet.sheet_id = [] then .noData
      else .file (exportRows db sheet.sheet_id)

/-! ### POST /upload_excel (app.py lines 282-516)

The import works on the dataframe `pd.read_excel` plus the header-cleaning
and Sheet-normalisation steps produce.  A dataframe is a column list plus a
row list; a cell is missing (NaN), numeric, or text.  The session is modelled
explicitly: `cur` is the session's view, `committed` the durable state,
`pending` the `salary_items` staging list and `cnt` the `inserted_rows`
counter; a commit copies `cur` to `committed`, the `except` rollback answers
with `committed`.  `failAt = some k` injects a database error at the start of
row `k`'s processing ("a database error during the row loop"); `none` is the
failure-free run. -/

/-- A dataframe cell. -/
inductive Cell where
  | na
  | num (q : Rat)
  | txt (s : String)
deriving DecidableEq, Repr

/-- A dataframe row: the cells keyed by column name. -/
structure XRow where
  cells : List (String × Cell)
deriving DecidableEq, Repr

/-- A dataframe after the cleaning steps. -/
structure Frame where
  cols : List String
  rows : List XRow
deriving DecidableEq, Repr

/-- `row.get(col)`: the cell, or NaN when the row has no such column. -/
def getCell (r : XRow) (c : String) : Cell :=
  ((r.cells.find? (fun p => p.1 = c)).map (fun p => p.2)).getD Cell.na

/-- `row.get(col, default)`: the cell, or the default string when the column
is absent. -/
def getCellD (r : XRow) (c d : String) : Cell :=
  ((r.cells.find? (fun p => p.1 = c)).map (fun p => p.2)).getD (Cell.txt d)

/-- Decimal repr of an integer-valued float (`str(5.0) = "5.0"`);
non-integer values render their exact fraction (an approximation of Python's
shortest-roundtrip float repr, never exercised by the claims: the only
stringified cells the handlers branch on are text or NaN). -/
def floatRepr (q : Rat) : String :=
  if q.den = 1 then toString q.num ++ ".0"
  else toString q.num ++ "/" ++ toString q.den

/-- `str(cell)`: NaN stringifies to "nan". -/
def cellStr (c : Cell) : String :=
  match c with
  | .na => "nan"
  | .num q => floatRepr q
  | .txt s => s

/-- Python `str.strip()` / pandas-side trimming: drop leading and trailing
whitespace (structurally, on the character list). -/
def pyStrip (s : String) : String :=
  ⟨((s.data.dropWhile Char.isWhitespace).reverse.dropWhile Char.isWhitespace).reverse⟩

/-- Python `str.lower()` (character-wise). -/
def pyLower (s : String) : String := ⟨s.data.map Char.toLower⟩

/-- `int(digit string)`. -/
def digitsVal (cs : List Char) : Nat :=
  cs.foldl (fun a c => a * 10 + (c.toNat - 48)) 0

/-- Python `float()` on a string: optional sign, then digits with an optional
fractional part ("1.", ".5" and "7" are all accepted; at least one digit is
required).  Exponents, `inf`/`nan` words and underscores are out of scope of
the claims and rejected here. -/
def pyFloat (s : String) : Option Rat :=
  let cs := (pyStrip s).data
  let signed : Int × List Char :=
    match cs with
    | '-' :: r => (-1, r)
    | '+' :: r => (1, r)
    | r => (1, r)
  let ip := signed.2.takeWhile (fun c => c.isDigit)
  let rest := signed.2.dropWhile (fun c => c.isDigit)
  match rest with
  | [] => if ip = [] then none else some ((signed.1 : Rat) * digitsVal ip)
  | '.' :: fp =>
      if fp.all (fun c => c.isDigit) && !(ip = [] && fp = []) then
        some ((signed.1 : Rat) *
          ((digitsVal ip : Rat) + (digitsVal fp : Rat) / ((10 : Rat) ^ fp.length)))
      else none
  | _ => none

/-- `float(cell)` for a present cell: numbers pass through, text goes through
the string parser. -/
def cellFloat (c : Cell) : Option Rat :=
  match c with
  | .na => none
  | .num q => some q
  | .txt s => pyFloat s

/-- The fixed identity columns excluded from the salary columns. -/
def TOP_LEVEL : List String :=
  ["Sheet", "รหัสพนักงาน", "ชื่อ-นามสกุล", "สถานะคนลาออก", "prefix", "year_th"]

/-- The employee code of a row: `str(row.get("รหัสพนักงาน", "")).strip()`. -/
def rowCode (r : XRow) : String := pyStrip (cellStr (getCellD r "รหัสพนักงาน" ""))

/-- The display name of a row. -/
def rowName (r : XRow) : String := pyStrip (cellStr (getCellD r "ชื่อ-นามสกุล" ""))

/-- The leaver-status of a row (defaults to "ปกติ" when the column is absent). -/
def rowStatus (r : XRow) : String := pyStrip (cellStr (getCellD r "สถานะคนลาออก" "ปกติ"))

/-- The row-skip guard: blank, "nan" or "none" employee codes are skipped. -/
def skipsRow (r : XRow) : Bool :=
  rowCode r = "" || pyLower (rowCode r) = "nan" || pyLower (rowCode r) = "none"

/-- The line items one row stages for its employee: one item per salary
column whose cell is present and float-parseable, carrying the
whitelist-resolved bucket.  (Validation guarantees every salary column is in
the whitelist; the `getD` fallback bucket is unreachable.) -/
def stageItems (cols : List String) (meta : List (String × Group))
    (sid eid : Nat) (r : XRow) : List SalaryItem :=
  cols.filterMap (fun c =>
    (cellFloat (getCell r c)).map (fun amount =>
      ⟨sid, eid, (metaLookup meta c).getD Group.earnings, c, amount⟩))

/-- The import loop state: the session view `cur`, the durable `committed`
state, the `salary_items` staging list and the `inserted_rows` counter. -/
structure LoopSt where
  cur : DB
  committed : DB
  pending : List SalaryItem
  cnt : Nat
deriving DecidableEq, Repr

/-- `batch_size = 10`. -/
def batchSize : Nat := 10

/-- The in-loop employee resolution: known codes are taken from the
preloaded map, unknown codes are inserted
(`INSERT ... ON DUPLICATE KEY UPDATE` + `flush` + re-query) and recorded. -/
def upsertEmp (d : DB) (r : XRow) : DB :=
  match empIdOf d.employees (rowCode r) with
  | some _ => d
  | none =>
      { d with
          employees := d.employees ++
            [⟨d.nextEmpId, rowCode r, rowName r, rowStatus r⟩],
          nextEmpId := d.nextEmpId + 1 }

/-- The employee id the row works with after the resolution. -/
def rowEid (d : DB) (r : XRow) : Nat :=
  (empIdOf (upsertEmp d r).employees (rowCode r)).getD 0

/-- `session.query(SalaryItem).filter_by(sheet_id, employee_id).delete()`. -/
def delKey (k : Nat × Nat) (l : List SalaryItem) : List SalaryItem :=
  l.filter (fun it => !(decide (itKey it = k)))

/-- The per-row batch boundary check: flush the staging list and commit when
`inserted_rows % batch_size == 0`. -/
def flushMaybe (σ : LoopSt) : LoopSt :=
  if σ.cnt % batchSize = 0 then
    let c : DB := { σ.cur with items := σ.cur.items ++ σ.pending }
    ⟨c, c, [], σ.cnt⟩
  else σ

/-- One iteration of the employee loop (app.py lines 422-492): skip blank
codes, resolve-or-insert the employee, delete the (sheet, employee) items in
the session, stage the row's items, and flush-and-commit when the counter
hits a batch boundary. -/
def processRow (cols : List String) (meta : List (String × Group)) (sid : Nat)
    (σ : LoopSt) (r : XRow) : LoopSt :=
  if skipsRow r then σ
  else
    let d := upsertEmp σ.cur r
    let eid := rowEid σ.cur r
    let staged := stageItems cols meta sid eid r
    flushMaybe ⟨{ d with items := delKey (sid, eid) d.items }, σ.committed,
                σ.pending ++ staged, σ.cnt + staged.length⟩

/-- The row loop without failure injection. -/
def runRows (cols : List String) (meta : List (String × Group)) (sid : Nat)
    (rs : List XRow) (σ : LoopSt) : LoopSt :=
  match rs with
  | [] => σ
  | r :: rest => runRows cols meta sid rest (processRow cols meta sid σ r)

/-- The row loop with a database error injected at the start of row `k`
(absolute row index); returns the state reached and whether the error fired. -/
def runRowsF (cols : List String) (meta : List (String × Group)) (sid : Nat)
    (idx : Nat) (failAt : Option Nat) (rs : List XRow) (σ : LoopSt) :
    LoopSt × Bool :=
  match rs with
  | [] => (σ, false)
  | r :: rest =>
      if failAt = some idx then (σ, true)
      else runRowsF cols meta sid (idx + 1) failAt rest (processRow cols meta sid σ r)

/-- The trailing `if salary_items: bulk_insert_mappings(...); commit()`. -/
def finalFlush (σ : LoopSt) : LoopSt :=
  if σ.pending = [] then σ
  else
    let c : DB := { σ.cur with items := σ.cur.items ++ σ.pending }
    ⟨c, c, [], σ.cnt⟩

inductive UploadResult where
  | noRows
  | unknownItems (unknown_columns allowed_columns : List String)
  | dbError
  | success (sheet : String) (rows_inserted : Nat)
deriving DecidableEq, Repr

/-- Insertion sort on strings (`sorted(list(meta_map.keys()))`). -/
def sortStrings (l : List String) : List String :=
  let rec ins (s : String) : List String → List String
    | [] => [s]
    | t :: ts => if s ≤ t then s :: t :: ts else t :: ins s ts
  l.foldr ins []

/-- The salary columns of a dataframe: every column outside the fixed
identity set. -/
def salaryColsOf (f : Frame) : List String :=
  f.cols.filter (fun c => !(TOP_LEVEL.contains c))

/-- The salary columns absent from the whitelist. -/
def unknownColsOf (db : DB) (f : Frame) : List String :=
  (salaryColsOf f).filter (fun c => (metaLookup db.meta c).isNone)

/-- The target period label: the first data row's "Sheet" value
(`str(df.iloc[0].get("Sheet", "Unknown")).strip()`). -/
def monthValueOf (r0 : XRow) : String := pyStrip (cellStr (getCellD r0 "Sheet" "Unknown"))

/-- The resolved-or-pending sheet of the import (`query ... .first()` or the
newly constructed `SalarySheet(month_year=month_value)`). -/
def importSheetOf (db : DB) (m : String) : SalarySheet :=
  match db.sheets.find? (fun s => s.month_year = m) with
  | some s => s
  | none => ⟨db.nextSheetId, m, none, none, false⟩

/-- The session view after the sheet resolution: unchanged when the sheet
exists, the pending insert (`session.add; session.flush`) otherwise. -/
def importCur0 (db : DB) (m : String) : DB :=
  match db.sheets.find? (fun s => s.month_year = m) with
  | some _ => db
  | none => { db with sheets := db.sheets ++ [importSheetOf db m],
                      nextSheetId := db.nextSheetId + 1 }

/-- `upload_excel` on an already-cleaned dataframe.  An empty dataframe
makes `df.iloc[0]` raise before the session opens (a 500 with no write);
unknown salary columns abort with a 400 before any commit, so the pending
sheet insert is rolled back on `session.close()`; a database error during the
loop rolls back to the last batch commit. -/
def importDf (db : DB) (f : Frame) (failAt : Option Nat) : DB × UploadResult :=
  match f.rows with
  | [] => (db, .noRows)
  | r0 :: _ =>
    let monthValue := monthValueOf r0
    let unknown := unknownColsOf db f
    if unknown ≠ [] then
      (db, .unknownItems unknown (sortStrings (db.meta.map (fun p => p.1))))
    else
      let σ0 : LoopSt := ⟨importCur0 db monthValue, db, [], 0⟩
      let run := runRowsF (salaryColsOf f) db.meta (importSheetOf db monthValue).sheet_id
        0 failAt f.rows σ0
      if run.2 then (run.1.committed, .dbError)
      else
        let σ := finalFlush run.1
        (σ.committed, .success monthValue σ.cnt)

/-! ## General lemmas -/

theorem isDigit_not_whitespace (c : Char) (h : c.isDigit = true) :
    c.isWhitespace = false := by
  have h1 : c ≠ ' ' := by rintro rfl; revert h; decide
  have h2 : c ≠ '\t' := by rintro rfl; revert h; decide
  have h3 : c ≠ '\n' := by rintro rfl; revert h; decide
  have h4 : c ≠ '\x0d' := by rintro rfl; revert h; decide
  simp [Char.isWhitespace, h1, h2, h3, h4]

/-! ## Claim C3: the Thai month normalisation -/

/-- A four-character all-digit year string. -/
def isYear4 (y : String) : Prop :=
  y.data.length = 4 ∧ ∀ c ∈ y.data, c.isDigit = true

instance (y : String) : Decidable (isYear4 y) := by
  unfold isYear4; infer_instance

theorem stripWs_of_no_ws (s : String) (h : ∀ c ∈ s.data, c.isWhitespace = false) :
    stripWs s = s := by
  unfold stripWs
  have : s.data.filter (fun c => !c.isWhitespace) = s.data :=
    List.filter_eq_self.mpr (fun c hc => by simp [h c hc])
  simp [this]

theorem matchPreYear_split (p y : List Char) (hp : p ≠ [])
    (hpd : ∀ c ∈ p, c.isDigit = false) (hy4 : (⟨y⟩ : String).data.length = 4)
    (hyd : ∀ c ∈ y, c.isDigit = true) :
    matchPreYear ⟨p ++ y⟩ = some (⟨p⟩, ⟨y⟩) := by
  have hy4' : y.length = 4 := hy4
  have hp1 : 1 ≤ p.length := by
    cases p with
    | nil => exact absurd rfl hp
    | cons a l => simp
  have hlen : ((⟨p ++ y⟩ : String)).data.length = p.length + 4 := by
    show (p ++ y).length = p.length + 4
    simp [hy4']
  simp only [matchPreYear, hlen]
  have h5 : 5 ≤ p.length + 4 := by omega
  rw [if_pos h5]
  have hidx : p.length + 4 - 4 = p.length := by omega
  rw [hidx]
  have htake : ((⟨p ++ y⟩ : String)).data.take p.length = p := List.take_left p y
  have hdrop : ((⟨p ++ y⟩ : String)).data.drop p.length = y := List.drop_left p y
  rw [htake, hdrop]
  have hya : y.all (fun c => c.isDigit) = true := List.all_eq_true.mpr hyd
  have hpa : p.all (fun c => !c.isDigit) = true :=
    List.all_eq_true.mpr (fun c hc => by simp [hpd c hc])
  rw [hya, hpa]
  simp

/-- The core normalisation lemma: a whitespace-free, digit-free, non-empty
prefix part followed by a four-digit year splits as the regex intends, and is
rewritten through the table with fallback to itself. -/
theorem sheetCellTransform_split (p y : String) (hp : p ≠ "")
    (hpd : ∀ c ∈ p.data, c.isDigit = false)
    (hpw : ∀ c ∈ p.data, c.isWhitespace = false)
    (hy : isYear4 y) :
    sheetCellTransform (p ++ y) = some ((preMapLookup p).getD p ++ y) := by
  obtain ⟨hy4, hyd⟩ := hy
  have hyw : ∀ c ∈ y.data, c.isWhitespace = false :=
    fun c hc => isDigit_not_whitespace c (hyd c hc)
  have hnw : ∀ c ∈ (p ++ y).data, c.isWhitespace = false := by
    intro c hc
    rw [String.data_append] at hc
    rcases List.mem_append.mp hc with h | h
    · exact hpw c h
    · exact hyw c h
  have hpne : p.data ≠ [] := by
    intro h
    apply hp
    cases p with
    | mk l => simp_all
  unfold sheetCellTransform
  rw [stripWs_of_no_ws _ hnw]
  have : (p ++ y) = (⟨p.data ++ y.data⟩ : String) := by
    cases p; cases y; rfl
  rw [this, matchPreYear_split p.data y.data hpne hpd (by simpa using hy4) hyd]

/-- Claim C3 is `corrected`: a "Sheet" cell that does not match
`<prefix><4-digit-year>` does not pass through unchanged — `str.extract`
yields NaN for it and the NaN propagates, leaving a missing value.  Concrete
counterexample: "ABC123" (only three trailing digits) is claimed to stay
"ABC123" but becomes NaN. -/
theorem C3_counterexample :
    sheetCellTransform "ABC123" ≠ some "ABC123" ∧
      sheetCellTransform "ABC123" = none := by
  constructor
  · decide
  · decide

/-- Claim C3, amended: after stripping all whitespace, a cell matching
`<prefix><4-digit-year>` with a table prefix becomes the English month name
followed by the unchanged year digits ("พ.ย.2568" → "November2568"); with an
unrecognized prefix it passes through unchanged ("XYZ2568" → "XYZ2568"); and a
cell that fails to match the pattern becomes a missing value (NaN, not the
original string). -/
theorem C3_thai_month_normalisation :
    (∀ p e y, (p, e) ∈ preMap → isYear4 y →
        sheetCellTransform (p ++ y) = some (e ++ y)) ∧
    (∀ p y, preMapLookup p = none → p ≠ "" →
        (∀ c ∈ p.data, c.isDigit = false) →
        (∀ c ∈ p.data, c.isWhitespace = false) → isYear4 y →
        sheetCellTransform (p ++ y) = some (p ++ y)) ∧
    (∀ s, matchPreYear (stripWs s) = none → sheetCellTransform s = none) ∧
    sheetCellTransform "พ.ย.2568" = some "November2568" ∧
    sheetCellTransform "XYZ2568" = some "XYZ2568" := by
  refine ⟨?_, ?_, ?_, by decide, by decide⟩
  · intro p e y hmem hy
    fin_cases hmem <;>
      · rw [sheetCellTransform_split _ y (by decide) (by decide) (by decide) hy]
        rfl
  · intro p y hlook hp hpd hpw hy
    rw [sheetCellTransform_split p y hp hpd hpw hy, hlook]
    rfl
  · intro s hm
    unfold sheetCellTransform
    rw [hm]

/-- Witness for the amended C3 theorem at concrete inputs. -/
theorem C3_thai_month_normalisation_witness :
    sheetCellTransform ("พ.ย." ++ "2568") = some ("November" ++ "2568") ∧
      sheetCellTransform ("XYZ" ++ "2568") = some ("XYZ" ++ "2568") := by
  constructor
  · exact C3_thai_month_normalisation.1 "พ.ย." "November" "2568" (by decide) (by decide)
  · exact C3_thai_month_normalisation.2.1 "XYZ" "2568" (by decide) (by decide)
      (by decide) (by decide) (by decide)

/-! ## Claim C7: the active flag and external reads -/

theorem find?_map_of_pred {α β : Type} (f : α → β) (p : β → Bool) (q : α → Bool)
    (l : List α) (h : ∀ x, p (f x) = q x) :
    (l.map f).find? p = (l.find? q).map f := by
  induction l with
  | nil => rfl
  | cons a t ih =>
      simp only [List.map_cons, List.find?]
      rw [h a]
      cases hq : q a with
      | true => rfl
      | false => simpa using ih

/-- Set the `api_is_active` flag of every sheet. -/
def setFlagAll (db : DB) (b : Bool) : DB :=
  { db with sheets := db.sheets.map (fun s => { s with api_is_active := b }) }

/-- A database whose only sheet has `api_is_active = false` (and no window
bounds), with one employee and one stored line item. -/
def dbC7 : DB :=
  ⟨[⟨1, "E1", "N", "ปกติ"⟩], [⟨1, "November2568", none, none, false⟩],
   [⟨1, 1, Group.earnings, "Base", 1000⟩], [("Base", Group.earnings)], 2, 2⟩

/-- Claim C7 is `corrected`: with `api_is_active = false` (and no bounds),
GET /salary_data/data still returns the stored line items — the flag does not
gate the read path at all. -/
theorem C7_counterexample :
    dbC7.sheets.map (fun s => s.api_is_active) = [false] ∧
      salaryDataGet dbC7 0 "November2568" "E1" =
        .found "November2568" "E1" "N" "ปกติ"
          [((Group.earnings, "Base"), "1000.00")] := by
  constructor
  · rfl
  · decide

/-- Claim C7, amended: `api_is_active` plays no part in
GET /salary_data/data — the response is invariant under rewriting every
sheet's flag; only the `api_active_from`/`api_active_to` bounds gate reads
(the flag is only reported by the window-inspection endpoint). -/
theorem C7_flag_does_not_gate_reads (db : DB) (b : Bool) (now : Int)
    (month empCode : String) :
    salaryDataGet (setFlagAll db b) now month empCode =
      salaryDataGet db now month empCode := by
  unfold salaryDataGet setFlagAll
  by_cases hreq : month = "" ∨ empCode = ""
  · simp [hreq]
  · simp only [hreq, if_false]
    have hf := find?_map_of_pred (fun s => { s with api_is_active := b })
      (fun s => s.month_year = month) (fun s => s.month_year = month)
      db.sheets (fun x => rfl)
    simp only [hf]
    cases hs : db.sheets.find? (fun s => s.month_year = month) with
    | none => rfl
    | some sheet =>
        cases he : db.employees.find? (fun e => e.emp_code = empCode) with
        | none => rfl
        | some emp => rfl

/-! ## Claim C1: the time-gated read -/

/-- The bucket-and-name key a stored item occupies in the GET response. -/
def groupKey (it : SalaryItem) : Group × String := (it.item_group, it.item_name)

theorem dictUpsert_fresh {α β : Type} [DecidableEq α] (l : List (α × β)) (k : α)
    (v : β) (h : ∀ p ∈ l, p.1 ≠ k) : dictUpsert l k v = l ++ [(k, v)] := by
  unfold dictUpsert
  have : l.any (fun p => p.1 = k) = false := by
    rw [List.any_eq_false]
    intro p hp
    simp [h p hp]
  simp [this]

theorem foldl_upsert_fresh (items : List SalaryItem) :
    ∀ acc : List ((Group × String) × String),
    (∀ it ∈ items, ∀ p ∈ acc, p.1 ≠ groupKey it) →
    (items.map groupKey).Nodup →
    items.foldl (fun a it => dictUpsert a (it.item_group, it.item_name) (fmt2 it.amount)) acc =
      acc ++ items.map (fun it => (groupKey it, fmt2 it.amount)) := by
  induction items with
  | nil => intro acc _ _; simp
  | cons hd tl ih =>
      intro acc hfresh hnd
      simp only [List.foldl_cons]
      have hup : dictUpsert acc (hd.item_group, hd.item_name) (fmt2 hd.amount) =
          acc ++ [(groupKey hd, fmt2 hd.amount)] :=
        dictUpsert_fresh acc _ _ (fun p hp => hfresh hd (by simp) p hp)
      rw [hup]
      rw [List.map_cons, List.nodup_cons] at hnd
      rw [ih (acc ++ [(groupKey hd, fmt2 hd.amount)])
            (by
              intro it hit p hp
              rcases List.mem_append.mp hp with h | h
              · exact hfresh it (by simp [hit]) p h
              · have : p = (groupKey hd, fmt2 hd.amount) := by simpa using h
                subst this
                intro hk
                apply hnd.1
                rw [show (groupKey hd, fmt2 hd.amount).1 = groupKey hd from rfl] at hk
                rw [hk]
                exact List.mem_map_of_mem groupKey hit)
            hnd.2]
      simp

theorem buildGrouped_eq_map (items : List SalaryItem)
    (h : (items.map groupKey).Nodup) :
    buildGrouped items = items.map (fun it => (groupKey it, fmt2 it.amount)) := by
  unfold buildGrouped
  simpa using foldl_upsert_fresh items [] (by simp) h

theorem dictGet_assoc_of_nodup (items : List SalaryItem)
    (h : (items.map groupKey).Nodup) (it : SalaryItem) (hit : it ∈ items) :
    dictGet (items.map (fun x => (groupKey x, fmt2 x.amount))) (groupKey it) =
      some (fmt2 it.amount) := by
  induction items with
  | nil => cases hit
  | cons hd tl ih =>
      rw [List.map_cons, List.nodup_cons] at h
      by_cases hk : groupKey it = groupKey hd
      · have heq : it = hd := by
          rcases List.mem_cons.mp hit with heq | hmem
          · exact heq
          · exfalso
            apply h.1
            rw [← hk]
            exact List.mem_map_of_mem groupKey hmem
        subst heq
        simp [dictGet, hk]
      · have hmem : it ∈ tl := by
          rcases List.mem_cons.mp hit with heq | hmem
          · exact absurd (heq ▸ rfl) hk
          · exact hmem
        have hrec := ih h.2 hmem
        simp only [List.map_cons, dictGet, List.find?] at hrec ⊢
        have hne : ¬((groupKey hd, fmt2 hd.amount).1 = groupKey it) := by
          exact fun hx => hk (hx.symm)
        simp only [decide_eq_false hne] at *
        simpa using hrec

/-- The current instant lies within the sheet's activation window
(`[active_from, active_to]`, each bound inclusive and optional). -/
def withinWindow (sheet : SalarySheet) (now : Int) : Prop :=
  (∀ f, sheet.api_active_from = some f → f ≤ now) ∧
  (∀ t, sheet.api_active_to = some t → now ≤ t)

theorem itemsFor_keys_nodup (db : DB) (sid eid : Nat) (hinv : InvDB db) :
    ((itemsFor db sid eid).map groupKey).Nodup := by
  have hsub : (itemsFor db sid eid).Sublist db.items := List.filter_sublist db.items
  have htr : ((itemsFor db sid eid).map itTriple).Nodup :=
    (hsub.map itTriple).nodup hinv
  have hpw : (itemsFor db sid eid).Pairwise (fun a b => itTriple a ≠ itTriple b) := by
    rw [List.Nodup, List.pairwise_map] at htr
    exact htr
  rw [List.Nodup, List.pairwise_map]
  refine List.Pairwise.imp_of_mem ?_ hpw
  intro a b ha hb hne
  have ha' := List.of_mem_filter ha
  have hb' := List.of_mem_filter hb
  simp only [decide_eq_true_eq] at ha' hb'
  intro hk
  apply hne
  have : a.item_name = b.item_name := congrArg Prod.snd hk
  unfold itTriple
  rw [ha'.1, ha'.2, hb'.1, hb'.2, this]

/-- Claim C1, confirmed: for a stored period and employee, a GET strictly
before `active_from` or strictly after `active_to` answers the empty list
(status 200); a GET within the inclusive window — or with a bound unset —
answers the stored items grouped into the three buckets keyed by item name,
each amount formatted as a fixed two-decimal string.  (The invariant
hypothesis is the store's at-most-one-row-per-triple invariant, which makes
"keyed by item name" well defined.) -/
theorem C1_time_gated_read (db : DB) (now : Int) (month empCode : String)
    (sheet : SalarySheet) (emp : Employee)
    (hm : month ≠ "") (hc : empCode ≠ "")
    (hs : db.sheets.find? (fun s => s.month_year = month) = some sheet)
    (he : db.employees.find? (fun e => e.emp_code = empCode) = some emp)
    (hinv : InvDB db) :
    (∀ f, sheet.api_active_from = some f → now < f →
        salaryDataGet db now month empCode = .empty) ∧
    (∀ t, sheet.api_active_to = some t → t < now →
        salaryDataGet db now month empCode = .empty) ∧
    (withinWindow sheet now →
        salaryDataGet db now month empCode =
          .found sheet.month_year emp.emp_code emp.full_name emp.status_name
            (buildGrouped (itemsFor db sheet.sheet_id emp.employee_id)) ∧
        ∀ it ∈ itemsFor db sheet.sheet_id emp.employee_id,
          dictGet (buildGrouped (itemsFor db sheet.sheet_id emp.employee_id))
              (it.item_group, it.item_name) = some (fmt2 it.amount)) := by
  have hreq : ¬(month = "" ∨ empCode = "") := by simp [hm, hc]
  refine ⟨?_, ?_, ?_⟩
  · intro f hf hlt
    unfold salaryDataGet
    rw [if_neg hreq, hs, he]
    dsimp only
    rw [hf]
    simp [hlt]
  · intro t ht hlt
    unfold salaryDataGet
    rw [if_neg hreq, hs, he]
    dsimp only
    rw [ht]
    cases hf : sheet.api_active_from with
    | none => simp [hlt]
    | some f =>
        by_cases hb : now < f
        · simp [hb]
        · simp [hb, hlt]
  · intro hwin
    have hnd := itemsFor_keys_nodup db sheet.sheet_id emp.employee_id hinv
    constructor
    · unfold salaryDataGet
      rw [if_neg hreq, hs, he]
      dsimp only
      have hfb : (sheet.api_active_from.map (fun f => decide (now < f))).getD false = false := by
        cases hf : sheet.api_active_from with
        | none => rfl
        | some f =>
            have hle := hwin.1 f hf
            show decide (now < f) = false
            exact decide_eq_false (by omega)
      have htb : (sheet.api_active_to.map (fun t => decide (t < now))).getD false = false := by
        cases ht : sheet.api_active_to with
        | none => rfl
        | some t =>
            have hle := hwin.2 t ht
            show decide (t < now) = false
            exact decide_eq_false (by omega)
      rw [hfb, htb]
      simp
    · intro it hit
      rw [buildGrouped_eq_map _ hnd]
      exact dictGet_assoc_of_nodup _ hnd it hit

/-- Witness for C1 at a concrete store and instants. -/
theorem C1_time_gated_read_witness :
    (salaryDataGet dbC7 0 "November2568" "E1" =
        .found "November2568" "E1" "N" "ปกติ"
          [((Group.earnings, "Base"), "1000.00")]) ∧
    (∀ f, (none : Option Int) = some f → (0 : Int) < f →
        salaryDataGet dbC7 0 "November2568" "E1" = .empty) := by
  have h := C1_time_gated_read dbC7 0 "November2568" "E1"
    ⟨1, "November2568", none, none, false⟩ ⟨1, "E1", "N", "ปกติ"⟩
    (by decide) (by decide) (by decide) (by decide) (by decide)
  constructor
  · have hw := (h.2.2 (by constructor <;> intro x hx <;> cases hx)).1
    rw [hw]
    rfl
  · exact h.1

/-! ## Claim C2: strict unknown-column validation -/

/-- Claim C2, confirmed: when the uploaded file has at least one salary
column absent from the whitelist, the import answers 400 with the full list
of offending columns and the full sorted whitelist, and the durable database
is unchanged (the pending sheet insert is never committed).  The statement
holds for every failure-injection choice because the loop is never reached. -/
theorem C2_unknown_columns_abort (db : DB) (f : Frame) (failAt : Option Nat)
    (hrows : f.rows ≠ []) (hunk : unknownColsOf db f ≠ []) :
    importDf db f failAt =
      (db, .unknownItems (unknownColsOf db f)
        (sortStrings (db.meta.map (fun p => p.1)))) := by
  unfold importDf
  cases hr : f.rows with
  | nil => exact absurd hr hrows
  | cons r0 rest =>
      dsimp only
      rw [if_pos hunk]

/-- Concrete inputs for the C2 witness: a whitelist without "BadCol" and a
file carrying a "BadCol" salary column. -/
def dbC2 : DB := ⟨[], [], [], [("Base", Group.earnings)], 1, 1⟩

def fC2 : Frame :=
  ⟨["รหัสพนักงาน", "Base", "BadCol"],
   [⟨[("รหัสพนักงาน", Cell.txt "E1"), ("Base", Cell.num 100),
      ("BadCol", Cell.num 2)]⟩]⟩

/-- Witness for C2 at concrete inputs. -/
theorem C2_unknown_columns_abort_witness :
    importDf dbC2 fC2 none = (dbC2, .unknownItems ["BadCol"] ["Base"]) := by
  have h := C2_unknown_columns_abort dbC2 fC2 none (by decide) (by decide)
  rw [h]
  rfl

/-! ## Claim C9: partial window update -/

theorem updSheet_month_year (body : PatchBody) (s : SalarySheet) :
    (updSheet body s).month_year = s.month_year := by
  unfold updSheet
  rcases body with ⟨bs, ba, bf, bt⟩
  dsimp only
  cases ba <;> rcases bf with _ | (_ | _) <;> rcases bt with _ | (_ | _) <;> rfl

theorem updSheet_from_of_none (body : PatchBody) (s : SalarySheet)
    (h : body.api_active_from = none) :
    (updSheet body s).api_active_from = s.api_active_from := by
  unfold updSheet
  rcases body with ⟨bs, ba, bf, bt⟩
  dsimp only at h ⊢
  subst h
  cases ba <;> rcases bt with _ | (_ | _) <;> rfl

theorem updSheet_to_of_none (body : PatchBody) (s : SalarySheet)
    (h : body.api_active_to = none) :
    (updSheet body s).api_active_to = s.api_active_to := by
  unfold updSheet
  rcases body with ⟨bs, ba, bf, bt⟩
  dsimp only at h ⊢
  subst h
  cases ba <;> rcases bf with _ | (_ | _) <;> rfl

theorem updSheet_flag_of_none (body : PatchBody) (s : SalarySheet)
    (h : body.api_is_active = none) :
    (updSheet body s).api_is_active = s.api_is_active := by
  unfold updSheet
  rcases body with ⟨bs, ba, bf, bt⟩
  dsimp only at h ⊢
  subst h
  rcases bf with _ | (_ | _) <;> rcases bt with _ | (_ | _) <;> rfl

/-- Claim C9, confirmed: a PATCH carrying only `api_is_active` (plus the
sheet id) rewrites exactly that flag — the stored `api_active_from` and
`api_active_to` stay untouched — and in general a sheet in the resulting
store agrees with a stored sheet on every field the request body does not
supply. -/
theorem C9_partial_window_update (db : DB) (sid : Nat) (s : SalarySheet) (b : Bool)
    (hsid : sid ≠ 0)
    (hfind : db.sheets.find? (fun x => x.sheet_id = sid) = some s) :
    (setApiWindow db ⟨some sid, some b, none, none⟩ =
      ({ db with sheets := db.sheets.map (fun x =>
           if x.sheet_id = sid then { s with api_is_active := b } else x) },
       .ok s.sheet_id b s.api_active_from s.api_active_to)) ∧
    (∀ body : PatchBody, body.sheet_id = some sid →
      ∀ x' ∈ (setApiWindow db body).1.sheets,
        ∃ x ∈ db.sheets, x'.month_year = x.month_year ∧
          (body.api_active_from = none → x'.api_active_from = x.api_active_from) ∧
          (body.api_active_to = none → x'.api_active_to = x.api_active_to) ∧
          (body.api_is_active = none → x'.api_is_active = x.api_is_active)) := by
  constructor
  · unfold setApiWindow
    dsimp only
    rw [if_neg hsid, hfind]
    rfl
  · intro body hbs x' hx'
    have hframe : ∀ x₀ ∈ db.sheets, x' = updSheet body x₀ ∨ x' ∈ db.sheets →
        True := fun _ _ _ => trivial
    unfold setApiWindow at hx'
    rw [hbs] at hx'
    dsimp only at hx'
    by_cases h0 : sid = 0
    · rw [if_pos h0] at hx'
      exact ⟨x', hx', rfl, fun _ => rfl, fun _ => rfl, fun _ => rfl⟩
    · rw [if_neg h0] at hx'
      cases hf : db.sheets.find? (fun x => x.sheet_id = sid) with
      | none =>
          rw [hf] at hx'
          exact ⟨x', hx', rfl, fun _ => rfl, fun _ => rfl, fun _ => rfl⟩
      | some s₀ =>
          rw [hf] at hx'
          dsimp only at hx'
          by_cases hbf : body.api_active_from = some none
          · rw [if_pos hbf] at hx'
            exact ⟨x', hx', rfl, fun _ => rfl, fun _ => rfl, fun _ => rfl⟩
          · rw [if_neg hbf] at hx'
            by_cases hbt : body.api_active_to = some none
            · rw [if_pos hbt] at hx'
              exact ⟨x', hx', rfl, fun _ => rfl, fun _ => rfl, fun _ => rfl⟩
            · rw [if_neg hbt] at hx'
              dsimp only at hx'
              rcases List.mem_map.mp hx' with ⟨x, hxmem, hxeq⟩
              by_cases hxid : x.sheet_id = sid
              · rw [if_pos hxid] at hxeq
                refine ⟨s₀, List.mem_of_find?_eq_some hf, ?_, ?_, ?_, ?_⟩
                · rw [← hxeq, updSheet_month_year]
                · intro hn; rw [← hxeq, updSheet_from_of_none body s₀ hn]
                · intro hn; rw [← hxeq, updSheet_to_of_none body s₀ hn]
                · intro hn; rw [← hxeq, updSheet_flag_of_none body s₀ hn]
              · rw [if_neg hxid] at hxeq
                exact ⟨x, hxmem, by rw [← hxeq], fun _ => by rw [← hxeq],
                  fun _ => by rw [← hxeq], fun _ => by rw [← hxeq]⟩

/-- A store with one sheet carrying an existing window, for the C9 witness. -/
def dbC9 : DB := ⟨[], [⟨1, "November2568", some 100, some 200, false⟩], [], [], 1, 2⟩

/-- Witness for C9 at a concrete store: setting only the flag keeps the
stored bounds. -/
theorem C9_partial_window_update_witness :
    setApiWindow dbC9 ⟨some 1, some true, none, none⟩ =
      ({ dbC9 with sheets := [⟨1, "November2568", some 100, some 200, true⟩] },
       .ok 1 true (some 100) (some 200)) := by
  have h := (C9_partial_window_update dbC9 1
    ⟨1, "November2568", some 100, some 200, false⟩ true (by decide) (by decide)).1
  rw [h]
  rfl

/-! ## Claim C10: the upsert is not gated by the activation window -/

theorem empIdOf_some_of_exists (es : List Employee) (code : String)
    (h : ∃ e ∈ es, e.emp_code = code) : ∃ eid, empIdOf es code = some eid := by
  unfold empIdOf
  obtain ⟨e, he, hc⟩ := h
  have hex : ∃ x ∈ es.reverse, (fun e => decide (e.emp_code = code)) x = true :=
    ⟨e, List.mem_reverse.mpr he, by simp [hc]⟩
  have hsome : (es.reverse.find? (fun e => decide (e.emp_code = code))).isSome := by
    rw [List.find?_isSome]
    obtain ⟨x, hx, hpx⟩ := hex
    exact ⟨x, hx, hpx⟩
  obtain ⟨e', he'⟩ := Option.isSome_iff_exists.mp hsome
  exact ⟨e'.employee_id, by rw [he']; rfl⟩

/-- Rewrite the activation window (both bounds and the flag) of every sheet
with the given month label. -/
def dbSetWindow (db : DB) (month : String) (f t : Option Int) (b : Bool) : DB :=
  { db with sheets := db.sheets.map (fun s =>
      if s.month_year = month then
        { s with api_active_from := f, api_active_to := t, api_is_active := b }
      else s) }

/-- Claim C10, confirmed: POST /salary_data/data never consults the
activation window — with the required fields present it answers 201 (and the
period and employee exist afterwards), and rewriting the target period's
window to any configuration (inactive flag, bounds in the future or past)
changes neither the response nor the resulting line items. -/
theorem C10_upsert_not_gated (db : DB) (month empCode fullName status : String)
    (datalist : List (Group × List (String × Option Rat)))
    (hm : month ≠ "") (hc : empCode ≠ "") :
    ((salaryDataPost db month empCode fullName status datalist).2 = .created) ∧
    (∃ s ∈ (salaryDataPost db month empCode fullName status datalist).1.sheets,
        s.month_year = month) ∧
    (∃ e ∈ (salaryDataPost db month empCode fullName status datalist).1.employees,
        e.emp_code = empCode) ∧
    (∀ f t b,
      (salaryDataPost (dbSetWindow db month f t b) month empCode fullName status
          datalist).2 =
        (salaryDataPost db month empCode fullName status datalist).2 ∧
      (salaryDataPost (dbSetWindow db month f t b) month empCode fullName status
          datalist).1.items =
        (salaryDataPost db month empCode fullName status datalist).1.items) := by
  have hreq : ¬(month = "" ∨ empCode = "") := by simp [hm, hc]
  have hmain : (salaryDataPost db month empCode fullName status datalist).2 = .created ∧
      (∃ s ∈ (salaryDataPost db month empCode fullName status datalist).1.sheets,
        s.month_year = month) ∧
      (∃ e ∈ (salaryDataPost db month empCode fullName status datalist).1.employees,
        e.emp_code = empCode) := by
    unfold salaryDataPost
    rw [if_neg hreq]
    dsimp only
    cases hs : db.sheets.find? (fun s => s.month_year = month) with
    | some s =>
        dsimp only
        by_cases hany : db.employees.any (fun e => e.emp_code = empCode) = true
        · rw [if_pos hany]
          obtain ⟨e₀, he₀, hc₀⟩ := by
            have := List.any_eq_true.mp hany
            simpa using this
          obtain ⟨eid, heid⟩ := empIdOf_some_of_exists
            (db.employees.map (fun e => if e.emp_code = empCode then
              { e with full_name := fullName, status_name := status } else e)) empCode
            ⟨{ e₀ with full_name := fullName, status_name := status },
             by
               have := List.mem_map_of_mem
                 (fun e => if e.emp_code = empCode then
                   { e with full_name := fullName, status_name := status } else e) he₀
               dsimp only at this
               rw [if_pos hc₀] at this
               exact this,
             hc₀⟩
          rw [heid]
          refine ⟨rfl, ⟨s, ?_, ?_⟩, ?_⟩
          · exact List.mem_of_find?_eq_some hs
          · have := List.find?_some hs
            simpa using this
          · refine ⟨{ e₀ with full_name := fullName, status_name := status }, ?_, hc₀⟩
            have := List.mem_map_of_mem
              (fun e => if e.emp_code = empCode then
                { e with full_name := fullName, status_name := status } else e) he₀
            dsimp only at this
            rw [if_pos hc₀] at this
            exact this
        · rw [if_neg hany]
          obtain ⟨eid, heid⟩ := empIdOf_some_of_exists
            (db.employees ++ [⟨db.nextEmpId, empCode, fullName, status⟩]) empCode
            ⟨⟨db.nextEmpId, empCode, fullName, status⟩, by simp, rfl⟩
          rw [heid]
          refine ⟨rfl, ⟨s, ?_, ?_⟩, ?_⟩
          · exact List.mem_of_find?_eq_some hs
          · have := List.find?_some hs
            simpa using this
          · exact ⟨⟨db.nextEmpId, empCode, fullName, status⟩, by simp, rfl⟩
    | none =>
        dsimp only
        by_cases hany : db.employees.any (fun e => e.emp_code = empCode) = true
        · rw [if_pos hany]
          obtain ⟨e₀, he₀, hc₀⟩ := by
            have := List.any_eq_true.mp hany
            simpa using this
          obtain ⟨eid, heid⟩ := empIdOf_some_of_exists
            (db.employees.map (fun e => if e.emp_code = empCode then
              { e with full_name := fullName, status_name := status } else e)) empCode
            ⟨{ e₀ with full_name := fullName, status_name := status },
             by
               have := List.mem_map_of_mem
                 (fun e => if e.emp_code = empCode then
                   { e with full_name := fullName, status_name := status } else e) he₀
               dsimp only at this
               rw [if_pos hc₀] at this
               exact this,
             hc₀⟩
          rw [heid]
          refine ⟨rfl, ⟨⟨db.nextSheetId, month, none, none, false⟩, by simp, rfl⟩, ?_⟩
          refine ⟨{ e₀ with full_name := fullName, status_name := status }, ?_, hc₀⟩
          have := List.mem_map_of_mem
            (fun e => if e.emp_code = empCode then
              { e with full_name := fullName, status_name := status } else e) he₀
          dsimp only at this
          rw [if_pos hc₀] at this
          exact this
        · rw [if_neg hany]
          obtain ⟨eid, heid⟩ := empIdOf_some_of_exists
            (db.employees ++ [⟨db.nextEmpId, empCode, fullName, status⟩]) empCode
            ⟨⟨db.nextEmpId, empCode, fullName, status⟩, by simp, rfl⟩
          rw [heid]
          exact ⟨rfl, ⟨⟨db.nextSheetId, month, none, none, false⟩, by simp, rfl⟩,
            ⟨⟨db.nextEmpId, empCode, fullName, status⟩, by simp, rfl⟩⟩
  refine ⟨hmain.1, hmain.2.1, hmain.2.2, ?_⟩
  intro f t b
  have hfind : (dbSetWindow db month f t b).sheets.find? (fun s => s.month_year = month)
      = (db.sheets.find? (fun s => s.month_year = month)).map
          (fun s => if s.month_year = month then
            { s with api_active_from := f, api_active_to := t, api_is_active := b }
          else s) := by
    unfold dbSetWindow
    dsimp only
    exact find?_map_of_pred _ _ _ db.sheets
      (fun x => by by_cases hx : x.month_year = month <;> simp [hx])
  have hboth :
      (salaryDataPost (dbSetWindow db month f t b) month empCode fullName status
          datalist).2 =
        (salaryDataPost db month empCode fullName status datalist).2 ∧
      (salaryDataPost (dbSetWindow db month f t b) month empCode fullName status
          datalist).1.items =
        (salaryDataPost db month empCode fullName status datalist).1.items := by
    unfold salaryDataPost
    rw [if_neg hreq, if_neg hreq]
    dsimp only
    rw [hfind]
    cases hs : db.sheets.find? (fun s => s.month_year = month) with
    | some s =>
        have hsm : s.month_year = month := by
          have := List.find?_some hs
          simpa using this
        dsimp only [Option.map]
        rw [if_pos hsm]
        dsimp only [dbSetWindow]
        by_cases hany : db.employees.any (fun e => e.emp_code = empCode) = true
        · rw [if_pos hany, if_pos hany]
          cases hEid : empIdOf
              (db.employees.map (fun e => if e.emp_code = empCode then
                { e with full_name := fullName, status_name := status } else e))
              empCode with
          | none => exact ⟨rfl, rfl⟩
          | some eid => exact ⟨rfl, rfl⟩
        · rw [if_neg hany, if_neg hany]
          cases hEid : empIdOf
              (db.employees ++ [⟨db.nextEmpId, empCode, fullName, status⟩])
              empCode with
          | none => exact ⟨rfl, rfl⟩
          | some eid => exact ⟨rfl, rfl⟩
    | none =>
        dsimp only [Option.map]
        dsimp only [dbSetWindow]
        by_cases hany : db.employees.any (fun e => e.emp_code = empCode) = true
        · rw [if_pos hany, if_pos hany]
          cases hEid : empIdOf
              (db.employees.map (fun e => if e.emp_code = empCode then
                { e with full_name := fullName, status_name := status } else e))
              empCode with
          | none => exact ⟨rfl, rfl⟩
          | some eid => exact ⟨rfl, rfl⟩
        · rw [if_neg hany, if_neg hany]
          cases hEid : empIdOf
              (db.employees ++ [⟨db.nextEmpId, empCode, fullName, status⟩])
              empCode with
          | none => exact ⟨rfl, rfl⟩
          | some eid => exact ⟨rfl, rfl⟩
  exact hboth

/-- Witness for C10 at a concrete store: the period's window is inactive and
in the past, and the upsert still succeeds and replaces the items. -/
theorem C10_upsert_not_gated_witness :
    (salaryDataPost dbC9 "November2568" "E9" "Name" "ปกติ"
        [(Group.earnings, [("Base", some 500)])]).2 = .created := by
  exact (C10_upsert_not_gated dbC9 "November2568" "E9" "Name" "ปกติ"
    [(Group.earnings, [("Base", some 500)])] (by decide) (by decide)).1

/-! ## Claim C5: failure during the row loop -/

theorem processRow_skip (cols : List String) (meta : List (String × Group))
    (sid : Nat) (σ : LoopSt) (r : XRow) (h : skipsRow r = true) :
    processRow cols meta sid σ r = σ := by
  unfold processRow
  rw [if_pos h]

theorem runRows_skip (cols : List String) (meta : List (String × Group))
    (sid : Nat) (rs : List XRow) (σ : LoopSt)
    (h : ∀ r ∈ rs, skipsRow r = true) :
    runRows cols meta sid rs σ = σ := by
  induction rs generalizing σ with
  | nil => rfl
  | cons r rest ih =>
      unfold runRows
      rw [processRow_skip cols meta sid σ r (h r (by simp))]
      exact ih σ (fun r' hr' => h r' (by simp [hr']))

theorem runRowsF_fail (cols : List String) (meta : List (String × Group))
    (sid : Nat) (rs : List XRow) :
    ∀ (k idx : Nat) (σ : LoopSt), k < rs.length →
    runRowsF cols meta sid idx (some (idx + k)) rs σ =
      (runRows cols meta sid (rs.take k) σ, true) := by
  induction rs with
  | nil => intro k idx σ hk; cases hk
  | cons r rest ih =>
      intro k idx σ hk
      cases k with
      | zero =>
          unfold runRowsF
          simp
          rfl
      | succ k' =>
          unfold runRowsF
          have hne : ¬(some (idx + (k' + 1)) = some idx) := by
            intro h
            have := Option.some.inj h
            omega
          rw [if_neg hne]
          have : idx + (k' + 1) = (idx + 1) + k' := by omega
          rw [this, ih k' (idx + 1) (processRow cols meta sid σ r) (by simpa using hk)]
          rfl

/-- The durable database after the loop has processed the first `k` rows:
the `committed` component of the loop state (the last batch commit). -/
def importCommittedAt (db : DB) (f : Frame) (k : Nat) : DB :=
  match f.rows with
  | [] => db
  | r0 :: _ =>
    (runRows (salaryColsOf f) db.meta (importSheetOf db (monthValueOf r0)).sheet_id
      (f.rows.take k) ⟨importCur0 db (monthValueOf r0), db, [], 0⟩).committed

/-- Claim C5, amended: a database error at row `k` of the loop answers 500
and rolls back only the work since the last batch commit — the durable state
is exactly the loop's `committed` state after the first `k` rows, which is
the pre-import state only when nothing was committed in between (for
instance when all earlier rows were skipped).  Batches committed before the
failure stay durable. -/
theorem C5_rollback_to_last_commit (db : DB) (f : Frame) (k : Nat)
    (hrows : f.rows ≠ []) (hunk : unknownColsOf db f = [])
    (hk : k < f.rows.length) :
    importDf db f (some k) = (importCommittedAt db f k, .dbError) ∧
    ((∀ r ∈ f.rows.take k, skipsRow r = true) → importCommittedAt db f k = db) := by
  constructor
  · unfold importDf importCommittedAt
    cases hr : f.rows with
    | nil => exact absurd hr hrows
    | cons r0 rest =>
        dsimp only
        rw [if_neg (by simp [hunk])]
        have hb := runRowsF_fail (salaryColsOf f) db.meta
          (importSheetOf db (monthValueOf r0)).sheet_id (r0 :: rest) k 0
          ⟨importCur0 db (monthValueOf r0), db, [], 0⟩
          (by rw [hr] at hk; exact hk)
        rw [Nat.zero_add] at hb
        rw [hb]
        rfl
  · intro hall
    unfold importCommittedAt
    cases hr : f.rows with
    | nil => rfl
    | cons r0 rest =>
        dsimp only
        rw [runRows_skip _ _ _ _ _ (by rw [hr] at hall; exact hall)]

/-- Concrete inputs for C5: ten whitelisted columns, a first row staging ten
items (one full batch, committed in the loop), and a second row at which the
database error fires. -/
def dbC5 : DB :=
  ⟨[], [], [],
   [("A0", Group.earnings), ("A1", Group.earnings), ("A2", Group.earnings),
    ("A3", Group.earnings), ("A4", Group.earnings), ("A5", Group.earnings),
    ("A6", Group.earnings), ("A7", Group.earnings), ("A8", Group.earnings),
    ("A9", Group.earnings)], 1, 1⟩

def fC5 : Frame :=
  ⟨["รหัสพนักงาน", "A0", "A1", "A2", "A3", "A4", "A5", "A6", "A7", "A8", "A9"],
   [⟨[("รหัสพนักงาน", Cell.txt "E1"), ("A0", Cell.num 1), ("A1", Cell.num 1),
      ("A2", Cell.num 1), ("A3", Cell.num 1), ("A4", Cell.num 1),
      ("A5", Cell.num 1), ("A6", Cell.num 1), ("A7", Cell.num 1),
      ("A8", Cell.num 1), ("A9", Cell.num 1)]⟩,
    ⟨[("รหัสพนักงาน", Cell.txt "E2"), ("A0", Cell.num 2)]⟩]⟩

/-- Claim C5 is `corrected`: a database error during the row loop does NOT
roll back the entire import — the batch committed before the failure stays
durable (here ten line items, a sheet and an employee persist although
the import answered a 500). -/
theorem C5_counterexample :
    (importDf dbC5 fC5 (some 1)).2 = .dbError ∧
      (importDf dbC5 fC5 (some 1)).1 ≠ dbC5 ∧
      (importDf dbC5 fC5 (some 1)).1.items.length = 10 := by
  refine ⟨?_, ?_, ?_⟩ <;> decide

/-- Witness for the amended C5 theorem at the concrete inputs. -/
theorem C5_rollback_to_last_commit_witness :
    importDf dbC5 fC5 (some 1) = (importCommittedAt dbC5 fC5 1, .dbError) :=
  (C5_rollback_to_last_commit dbC5 fC5 1 (by decide) (by decide) (by decide)).1

/-! ## Claim C8: the pivot export totals -/

/-- The stored amounts of one (sheet, employee, item name) cell, summed. -/
def storedSum (db : DB) (sid eid : Nat) (n : String) : Rat :=
  ((db.items.filter (fun it =>
    decide (it.sheet_id = sid ∧ it.employee_id = eid ∧ it.item_name = n))).map
    (fun it => it.amount)).sum

/-- A pivot cell is exactly the sum of the stored amounts for that
(sheet, employee, item name), provided the employee id resolves (the join
keeps that employee's items). -/
theorem pivotCell_eq_storedSum (db : DB) (sid eid : Nat) (n : String)
    (e : Employee)
    (hemp : db.employees.find? (fun x => x.employee_id = eid) = some e) :
    pivotCell (exportJoin db sid) eid n = storedSum db sid eid n := by
  unfold pivotCell storedSum exportJoin
  induction db.items with
  | nil => rfl
  | cons it l ih =>
      by_cases hsid : it.sheet_id = sid
      · rw [List.filter_cons_of_pos (by simp [hsid])]
        cases hfind : db.employees.find? (fun x => x.employee_id = it.employee_id) with
        | none =>
            rw [List.filterMap_cons_none (by rw [hfind]; rfl)]
            have heid : ¬(it.employee_id = eid) := by
              intro h
              rw [h, hemp] at hfind
              cases hfind
            rw [List.filter_cons_of_neg (by simp [hsid, heid]), ih]
        | some e' =>
            rw [List.filterMap_cons_some (by rw [hfind]; rfl)]
            have he' : e'.employee_id = it.employee_id := by
              have := List.find?_some hfind
              simpa using this
            by_cases hkeep : it.employee_id = eid ∧ it.item_name = n
            · rw [List.filter_cons_of_pos (by simp [he', hkeep.1, hkeep.2]),
                 List.filter_cons_of_pos (by simp [hsid, hkeep.1, hkeep.2])]
              simp only [List.map_cons, List.sum_cons]
              rw [ih]
            · rw [List.filter_cons_of_neg (by
                    simp only [decide_eq_true_eq, he']
                    intro hcon
                    exact hkeep ⟨hcon.1, hcon.2⟩),
                  List.filter_cons_of_neg (by
                    simp only [decide_eq_true_eq]
                    intro hcon
                    exact hkeep ⟨hcon.2.1, hcon.2.2⟩)]
              exact ih
      · rw [List.filter_cons_of_neg (by simp [hsid]),
           List.filter_cons_of_neg (by simp [hsid])]
        exact ih

/-- Claim C8, confirmed: every exported pivot row satisfies
Net Pay = Total Earnings − Total Deductions, Total Earnings is the sum over
the period's earnings item names of the employee's stored sums (and likewise
for deductions), every cell equals the stored sum for its item name, and a
cell whose (employee, item) combination has no stored row is zero. -/
theorem C8_pivot_export_totals (db : DB) (month : String) (sheet : SalarySheet)
    (hm : month ≠ "")
    (hs : db.sheets.find? (fun s => s.month_year = month) = some sheet)
    (hne : exportJoin db sheet.sheet_id ≠ []) :
    exportSalaryMonthPivot db month = .file (exportRows db sheet.sheet_id) ∧
    (∀ pr ∈ exportRows db sheet.sheet_id,
      pr.netPay = pr.totalEarnings - pr.totalDeductions ∧
      ∃ e ∈ db.employees, pr.emp_code = e.emp_code ∧
        pr.totalEarnings = ((joinNamesOfGroup db sheet.sheet_id Group.earnings).map
          (storedSum db sheet.sheet_id e.employee_id)).sum ∧
        pr.totalDeductions = ((joinNamesOfGroup db sheet.sheet_id Group.deductions).map
          (storedSum db sheet.sheet_id e.employee_id)).sum ∧
        (∀ n q, (n, q) ∈ pr.cells → q = storedSum db sheet.sheet_id e.employee_id n) ∧
        (∀ n q, (n, q) ∈ pr.cells →
          (db.items.filter (fun it => decide (it.sheet_id = sheet.sheet_id ∧
            it.employee_id = e.employee_id ∧ it.item_name = n))) = [] → q = 0)) := by
  constructor
  · unfold exportSalaryMonthPivot
    rw [if_neg hm, hs]
    dsimp only
    rw [if_neg hne]
  · intro pr hpr
    unfold exportRows at hpr
    dsimp only at hpr
    rcases List.mem_map.mp hpr with ⟨e, hemem, hpeq⟩
    rcases List.mem_filterMap.mp hemem with ⟨c, hcmem, hcfind⟩
    have heid : ∃ e', db.employees.find?
        (fun x => x.employee_id = e.employee_id) = some e' ∧
        e'.employee_id = e.employee_id := by
      have hmem : e ∈ db.employees := List.mem_of_find?_eq_some hcfind
      have hsome : (db.employees.find? (fun x => x.employee_id = e.employee_id)).isSome := by
        rw [List.find?_isSome]
        exact ⟨e, hmem, by simp⟩
      obtain ⟨e', he'⟩ := Option.isSome_iff_exists.mp hsome
      refine ⟨e', he', ?_⟩
      have := List.find?_some he'
      simpa using this
    obtain ⟨e', hfind', hid'⟩ := heid
    have hcell : ∀ n, pivotCell (exportJoin db sheet.sheet_id) e.employee_id n =
        storedSum db sheet.sheet_id e.employee_id n := by
      intro n
      have := pivotCell_eq_storedSum db sheet.sheet_id e.employee_id n e' hfind'
      exact this
    constructor
    · rw [← hpeq]
    · refine ⟨e, List.mem_of_find?_eq_some hcfind, ?_, ?_, ?_, ?_, ?_⟩
      · rw [← hpeq]
      · rw [← hpeq]
        dsimp only
        congr 1
        exact List.map_congr_left (fun n _ => hcell n)
      · rw [← hpeq]
        dsimp only
        congr 1
        exact List.map_congr_left (fun n _ => hcell n)
      · intro n q hq
        rw [← hpeq] at hq
        dsimp only at hq
        rcases List.mem_map.mp hq with ⟨n', _, hn'⟩
        have hn : n' = n := congrArg Prod.fst hn'
        have hqv : pivotCell (exportJoin db sheet.sheet_id) e.employee_id n' = q :=
          congrArg Prod.snd hn'
        rw [← hqv, hn, hcell n]
      · intro n q hq hnil
        rw [← hpeq] at hq
        dsimp only at hq
        rcases List.mem_map.mp hq with ⟨n', _, hn'⟩
        have hn : n' = n := congrArg Prod.fst hn'
        have hqv : pivotCell (exportJoin db sheet.sheet_id) e.employee_id n' = q :=
          congrArg Prod.snd hn'
        rw [← hqv, hn, hcell n]
        unfold storedSum
        rw [hnil]
        rfl

/-- A period with employee E1 holding earnings {A: 100, B: 50} and
deduction {C: 30}. -/
def dbC8 : DB :=
  ⟨[⟨1, "E1", "Emp", "ปกติ"⟩], [⟨1, "November2568", none, none, false⟩],
   [⟨1, 1, Group.earnings, "A", 100⟩, ⟨1, 1, Group.earnings, "B", 50⟩,
    ⟨1, 1, Group.deductions, "C", 30⟩],
   [("A", Group.earnings), ("B", Group.earnings), ("C", Group.deductions)], 2, 2⟩

/-- Witness for C8: on the spec's concrete example the exported row carries
Total Earnings 150, Total Deductions 30, Net Pay 120 (applying the theorem
and evaluating the stored sums). -/
theorem C8_pivot_export_totals_witness :
    exportSalaryMonthPivot dbC8 "November2568" =
      .file (exportRows dbC8 1) ∧
    ∀ pr ∈ exportRows dbC8 1,
      pr.netPay = pr.totalEarnings - pr.totalDeductions := by
  have h := C8_pivot_export_totals dbC8 "November2568"
    ⟨1, "November2568", none, none, false⟩ (by decide) (by decide) (by decide)
  exact ⟨h.1, fun pr hpr => (h.2 pr hpr).1⟩

/-! ## Shared machinery for the import-loop claims (C4, C6) -/

/-- Keep only the items whose (sheet, employee) key is outside `K`. -/
def keepKeys (K : List (Nat × Nat)) (l : List SalaryItem) : List SalaryItem :=
  l.filter (fun it => !(decide (itKey it ∈ K)))

theorem keepKeys_nil (l : List SalaryItem) : keepKeys [] l = l := by
  unfold keepKeys
  rw [List.filter_eq_self]
  intro a _
  simp

theorem keepKeys_append (K : List (Nat × Nat)) (l₁ l₂ : List SalaryItem) :
    keepKeys K (l₁ ++ l₂) = keepKeys K l₁ ++ keepKeys K l₂ :=
  List.filter_append l₁ l₂

theorem delKey_keepKeys (k : Nat × Nat) (K : List (Nat × Nat))
    (l : List SalaryItem) : delKey k (keepKeys K l) = keepKeys (k :: K) l := by
  unfold delKey keepKeys
  rw [List.filter_filter]
  apply List.filter_congr
  intro it _
  by_cases h1 : itKey it = k
  · simp [h1]
  · by_cases h2 : itKey it ∈ K <;> simp [h1, h2]

theorem keepKeys_of_all_mem (K : List (Nat × Nat)) (l : List SalaryItem)
    (h : ∀ it ∈ l, itKey it ∈ K) : keepKeys K l = [] := by
  unfold keepKeys
  rw [List.filter_eq_nil_iff]
  intro it hit
  simp [h it hit]

theorem keepKeys_idem (K : List (Nat × Nat)) (l : List SalaryItem) :
    keepKeys K (keepKeys K l) = keepKeys K l := by
  unfold keepKeys
  rw [List.filter_filter]
  apply List.filter_congr
  intro it _
  by_cases h : itKey it ∈ K <;> simp [h]

theorem keepKeys_mono (k : Nat × Nat) (K : List (Nat × Nat))
    (l : List SalaryItem) (it : SalaryItem) (h : it ∈ keepKeys K l) :
    it ∈ l := List.mem_of_mem_filter h

/-- `empIdOf` finds a member with the looked-up code. -/
theorem empIdOf_spec (es : List Employee) (c : String) (i : Nat)
    (h : empIdOf es c = some i) :
    ∃ e ∈ es, e.emp_code = c ∧ e.employee_id = i := by
  unfold empIdOf at h
  cases hf : es.reverse.find? (fun e => e.emp_code = c) with
  | none => rw [hf] at h; cases h
  | some e =>
      rw [hf] at h
      refine ⟨e, List.mem_reverse.mp (List.mem_of_find?_eq_some hf), ?_, ?_⟩
      · have := List.find?_some hf
        simpa using this
      · have : e.employee_id = i := by simpa using h
        exact this

theorem empIdOf_none_iff (es : List Employee) (c : String) :
    empIdOf es c = none ↔ ∀ e ∈ es, e.emp_code ≠ c := by
  unfold empIdOf
  constructor
  · intro h e he hc
    cases hf : es.reverse.find? (fun e => e.emp_code = c) with
    | some e' => rw [hf] at h; cases h
    | none =>
        rw [List.find?_eq_none] at hf
        exact hf e (List.mem_reverse.mpr he) (by simp [hc])
  · intro h
    cases hf : es.reverse.find? (fun e => e.emp_code = c) with
    | none => rfl
    | some e' =>
        exfalso
        have hmem := List.mem_reverse.mp (List.mem_of_find?_eq_some hf)
        have hp := List.find?_some hf
        simp only [decide_eq_true_eq] at hp
        exact h e' hmem hp

theorem empIdOf_append_self (es : List Employee) (e : Employee) :
    empIdOf (es ++ [e]) e.emp_code = some e.employee_id := by
  unfold empIdOf
  rw [List.reverse_append]
  simp [List.find?]

theorem empIdOf_append_of_ne (es ext : List Employee) (c : String)
    (h : ∀ x ∈ ext, x.emp_code ≠ c) :
    empIdOf (es ++ ext) c = empIdOf es c := by
  unfold empIdOf
  rw [List.reverse_append]
  rw [List.find?_append]
  have hnone : ext.reverse.find? (fun e => e.emp_code = c) = none := by
    rw [List.find?_eq_none]
    intro x hx
    simp [h x (List.mem_reverse.mp hx)]
  rw [hnone]
  rfl

/-- Every staged item of a row carries the row's (sheet, employee) key. -/
theorem stageItems_key (cols : List String) (meta : List (String × Group))
    (sid eid : Nat) (r : XRow) (it : SalaryItem)
    (h : it ∈ stageItems cols meta sid eid r) :
    it.sheet_id = sid ∧ it.employee_id = eid := by
  unfold stageItems at h
  rcases List.mem_filterMap.mp h with ⟨c, _, hc⟩
  cases hv : cellFloat (getCell r c) with
  | none => rw [hv] at hc; cases hc
  | some q =>
      rw [hv] at hc
      have : (⟨sid, eid, (metaLookup meta c).getD Group.earnings, c, q⟩ : SalaryItem) = it := by
        simpa using hc
      rw [← this]
      exact ⟨rfl, rfl⟩

/-- The staged item names are a sublist of the salary columns. -/
theorem stageItems_names_sublist (cols : List String)
    (meta : List (String × Group)) (sid eid : Nat) (r : XRow) :
    ((stageItems cols meta sid eid r).map (fun it => it.item_name)).Sublist cols := by
  induction cols with
  | nil => simp [stageItems]
  | cons c rest ih =>
      unfold stageItems
      cases hv : cellFloat (getCell r c) with
      | none =>
          rw [List.filterMap_cons_none (by rw [hv]; rfl)]
          exact (ih).trans (List.sublist_cons_self c rest)
      | some q =>
          rw [List.filterMap_cons_some (by rw [hv]; rfl)]
          rw [List.map_cons]
          exact List.Sublist.cons₂ c ih

/-- Frame: `upsertEmp` only touches `employees` and `nextEmpId`. -/
theorem upsertEmp_frame (d : DB) (r : XRow) :
    (upsertEmp d r).sheets = d.sheets ∧ (upsertEmp d r).items = d.items ∧
    (upsertEmp d r).meta = d.meta ∧ (upsertEmp d r).nextSheetId = d.nextSheetId := by
  unfold upsertEmp
  cases empIdOf d.employees (rowCode r) <;> exact ⟨rfl, rfl, rfl, rfl⟩

/-- Frame: a loop step never touches the session's sheets, meta or sheet
counter. -/
theorem processRow_frame (cols : List String) (meta : List (String × Group))
    (sid : Nat) (σ : LoopSt) (r : XRow) :
    (processRow cols meta sid σ r).cur.sheets = σ.cur.sheets ∧
    (processRow cols meta sid σ r).cur.meta = σ.cur.meta ∧
    (processRow cols meta sid σ r).cur.nextSheetId = σ.cur.nextSheetId := by
  unfold processRow
  by_cases hskip : skipsRow r
  · rw [if_pos hskip]
    exact ⟨rfl, rfl, rfl⟩
  · rw [if_neg hskip]
    dsimp only
    unfold flushMaybe
    obtain ⟨h1, h2, h3, h4⟩ := upsertEmp_frame σ.cur r
    by_cases hb : (σ.cnt + (stageItems cols meta sid (rowEid σ.cur r) r).length)
        % batchSize = 0
    · rw [if_pos hb]
      exact ⟨h1, h3, h4⟩
    · rw [if_neg hb]
      exact ⟨h1, h3, h4⟩

theorem runRows_frame (cols : List String) (meta : List (String × Group))
    (sid : Nat) (rs : List XRow) (σ : LoopSt) :
    (runRows cols meta sid rs σ).cur.sheets = σ.cur.sheets ∧
    (runRows cols meta sid rs σ).cur.meta = σ.cur.meta ∧
    (runRows cols meta sid rs σ).cur.nextSheetId = σ.cur.nextSheetId := by
  induction rs generalizing σ with
  | nil => exact ⟨rfl, rfl, rfl⟩
  | cons r rest ih =>
      unfold runRows
      obtain ⟨h1, h2, h3⟩ := ih (processRow cols meta sid σ r)
      obtain ⟨g1, g2, g3⟩ := processRow_frame cols meta sid σ r
      exact ⟨h1.trans g1, h2.trans g2, h3.trans g3⟩

theorem finalFlush_frame (σ : LoopSt) :
    (finalFlush σ).cur.sheets = σ.cur.sheets ∧
    (finalFlush σ).cur.meta = σ.cur.meta ∧
    (finalFlush σ).cur.nextSheetId = σ.cur.nextSheetId ∧
    (finalFlush σ).cur.employees = σ.cur.employees ∧
    (finalFlush σ).cur.nextEmpId = σ.cur.nextEmpId := by
  unfold finalFlush
  by_cases h : σ.pending = []
  · rw [if_pos h]
    exact ⟨rfl, rfl, rfl, rfl, rfl⟩
  · rw [if_neg h]
    exact ⟨rfl, rfl, rfl, rfl, rfl⟩

/-- The failure-free run (`failAt = none`) is the plain row loop. -/
theorem runRowsF_none (cols : List String) (meta : List (String × Group))
    (sid : Nat) (rs : List XRow) :
    ∀ (idx : Nat) (σ : LoopSt),
    runRowsF cols meta sid idx none rs σ = (runRows cols meta sid rs σ, false) := by
  induction rs with
  | nil => intro idx σ; rfl
  | cons r rest ih =>
      intro idx σ
      unfold runRowsF
      rw [if_neg (by simp)]
      rw [ih (idx + 1) (processRow cols meta sid σ r)]
      rfl

/-! ## Claim C4: the at-most-one-row-per-triple invariant -/

/-- Well-formedness the schema guarantees for `employees`: distinct ids, all
below the autoincrement counter. -/
def WFemp (d : DB) : Prop :=
  (d.employees.map (fun e => e.employee_id)).Nodup ∧
  ∀ e ∈ d.employees, e.employee_id < d.nextEmpId

instance (d : DB) : Decidable (WFemp d) := by
  unfold WFemp; infer_instance

/-- At most one item per (sheet, employee, name) triple in a list. -/
def TriplesND (l : List SalaryItem) : Prop := (l.map itTriple).Nodup

theorem itTriple_eq_key {a b : SalaryItem} (h : itTriple a = itTriple b) :
    itKey a = itKey b := by
  unfold itTriple at h
  unfold itKey
  have h1 : a.sheet_id = b.sheet_id := congrArg Prod.fst h
  have h2 : a.employee_id = b.employee_id := congrArg (fun t => t.2.1) h
  rw [h1, h2]

theorem TriplesND_sublist {l' l : List SalaryItem} (hs : l'.Sublist l)
    (h : TriplesND l) : TriplesND l' := (hs.map itTriple).nodup h

theorem TriplesND_append {l₁ l₂ : List SalaryItem} (h1 : TriplesND l₁)
    (h2 : TriplesND l₂)
    (hdis : ∀ a ∈ l₁, ∀ b ∈ l₂, itTriple a ≠ itTriple b) :
    TriplesND (l₁ ++ l₂) := by
  unfold TriplesND
  rw [List.map_append, List.nodup_append]
  refine ⟨h1, h2, ?_⟩
  intro x hx hy
  rcases List.mem_map.mp hx with ⟨a, ha, rfl⟩
  rcases List.mem_map.mp hy with ⟨b, hb, hab⟩
  exact hdis a ha b hb hab.symm

theorem stageItems_triples_nd (cols : List String)
    (meta : List (String × Group)) (sid eid : Nat) (r : XRow)
    (hcols : cols.Nodup) : TriplesND (stageItems cols meta sid eid r) := by
  have hnames : ((stageItems cols meta sid eid r).map (fun it => it.item_name)).Nodup :=
    (stageItems_names_sublist cols meta sid eid r).nodup hcols
  unfold TriplesND
  rw [List.Nodup, List.pairwise_map]
  rw [List.Nodup, List.pairwise_map] at hnames
  refine hnames.imp ?_
  intro a b hne heq
  exact hne (congrArg (fun t => t.2.2) heq)

/-- `upsertEmp` resolved: either the code is known (state unchanged) or a
fresh employee is appended with the next id. -/
theorem upsertEmp_cases (d : DB) (r : XRow) :
    (empIdOf d.employees (rowCode r) = some (rowEid d r) ∧ upsertEmp d r = d) ∨
    (empIdOf d.employees (rowCode r) = none ∧
      upsertEmp d r = { d with
        employees := d.employees ++ [⟨d.nextEmpId, rowCode r, rowName r, rowStatus r⟩],
        nextEmpId := d.nextEmpId + 1 } ∧
      rowEid d r = d.nextEmpId) := by
  cases hE : empIdOf d.employees (rowCode r) with
  | some i =>
      left
      have hu : upsertEmp d r = d := by unfold upsertEmp; rw [hE]
      have hr : rowEid d r = i := by
        unfold rowEid
        rw [hu, hE]
        rfl
      rw [hr]
      exact ⟨rfl, hu⟩
  | none =>
      right
      have hu : upsertEmp d r = { d with
          employees := d.employees ++ [⟨d.nextEmpId, rowCode r, rowName r, rowStatus r⟩],
          nextEmpId := d.nextEmpId + 1 } := by
        unfold upsertEmp; rw [hE]
      refine ⟨rfl, hu, ?_⟩
      unfold rowEid
      rw [hu]
      dsimp only
      rw [empIdOf_append_self d.employees ⟨d.nextEmpId, rowCode r, rowName r, rowStatus r⟩]
      rfl

theorem WFemp_upsertEmp (d : DB) (r : XRow) (h : WFemp d) :
    WFemp (upsertEmp d r) := by
  rcases upsertEmp_cases d r with ⟨_, hu⟩ | ⟨_, hu, _⟩
  · rw [hu]; exact h
  · rw [hu]
    constructor
    · rw [List.map_append, List.nodup_append]
      refine ⟨h.1, by simp, ?_⟩
      intro x hx hy
      rcases List.mem_map.mp hx with ⟨e, he, rfl⟩
      have hb := h.2 e he
      simp only [List.map_cons, List.map_nil, List.mem_cons, List.not_mem_nil] at hy
      rcases hy with hy | hy
      · omega
      · cases hy
    · intro e he
      rcases List.mem_append.mp he with he | he
      · have := h.2 e he
        dsimp only
        omega
      · have : e = ⟨d.nextEmpId, rowCode r, rowName r, rowStatus r⟩ := by simpa using he
        rw [this]
        dsimp only
        omega

/-- The loop invariant for claim C4: under distinct salary columns and
distinct non-skipped employee codes, the whole loop keeps both the session
view (plus staging list) and the committed state free of duplicate triples. -/
theorem loop4 (cols : List String) (meta : List (String × Group)) (sid : Nat)
    (hcols : cols.Nodup) :
    ∀ (rs : List XRow) (σ : LoopSt) (done : List String),
    WFemp σ.cur →
    ((rs.filter (fun r => !skipsRow r)).map rowCode).Nodup →
    (∀ r ∈ rs, skipsRow r = false → rowCode r ∉ done) →
    TriplesND (σ.cur.items ++ σ.pending) →
    TriplesND σ.committed.items →
    (∀ it ∈ σ.pending, it.sheet_id = sid ∧
       ∃ c ∈ done, empIdOf σ.cur.employees c = some it.employee_id) →
    WFemp (runRows cols meta sid rs σ).cur ∧
    TriplesND ((runRows cols meta sid rs σ).cur.items ++
      (runRows cols meta sid rs σ).pending) ∧
    TriplesND (runRows cols meta sid rs σ).committed.items := by
  intro rs
  induction rs with
  | nil =>
      intro σ done hwf _ _ hnd hcomm _
      exact ⟨hwf, hnd, hcomm⟩
  | cons r rest ih =>
      intro σ done hwf hcodes hdone hnd hcomm hpend
      unfold runRows
      by_cases hskip : skipsRow r = true
      · rw [processRow_skip cols meta sid σ r hskip]
        rw [List.filter_cons_of_neg (by simp [hskip])] at hcodes
        exact ih σ done hwf hcodes
          (fun r' hr' hs' => hdone r' (by simp [hr']) hs') hnd hcomm hpend
      · have hskip' : skipsRow r = false := by
          cases h : skipsRow r
          · rfl
          · exact absurd h hskip
        rw [List.filter_cons_of_pos (by simp [hskip']), List.map_cons,
          List.nodup_cons] at hcodes
        have hstep : processRow cols meta sid σ r =
            flushMaybe ⟨{ upsertEmp σ.cur r with
                items := delKey (sid, rowEid σ.cur r) (upsertEmp σ.cur r).items },
              σ.committed,
              σ.pending ++ stageItems cols meta sid (rowEid σ.cur r) r,
              σ.cnt + (stageItems cols meta sid (rowEid σ.cur r) r).length⟩ := by
          unfold processRow
          rw [if_neg hskip]
        rw [hstep]
        set c := rowCode r with hc
        set eid := rowEid σ.cur r with heid
        set staged := stageItems cols meta sid eid r with hstaged
        set d := upsertEmp σ.cur r with hd
        -- facts about the employee resolution
        have hdit : d.items = σ.cur.items := (upsertEmp_frame σ.cur r).2.1
        have hwfd : WFemp d := WFemp_upsertEmp σ.cur r hwf
        have heidlook : empIdOf d.employees c = some eid := by
          rcases upsertEmp_cases σ.cur r with ⟨hE, hu⟩ | ⟨hE, hu, hv⟩
          · rw [hd, hu]; exact hE
          · rw [hd, hu]
            dsimp only
            rw [heid, hv]
            exact empIdOf_append_self σ.cur.employees
              ⟨σ.cur.nextEmpId, rowCode r, rowName r, rowStatus r⟩
        have hpendne : ∀ it ∈ σ.pending, it.employee_id ≠ eid := by
          intro it hit hiteq
          obtain ⟨_, c', hc'done, hc'look⟩ := hpend it hit
          have hcc' : c' ≠ c := by
            intro hcc
            rw [hc] at hcc
            exact hdone r (by simp) hskip' (by rw [← hcc]; exact hc'done)
          rcases upsertEmp_cases σ.cur r with ⟨hE, hu⟩ | ⟨hE, hu, hv⟩
          · -- code already known: two distinct codes cannot share an id
            obtain ⟨e1, he1, he1c, he1i⟩ := empIdOf_spec _ _ _ hc'look
            have hE' : empIdOf σ.cur.employees c = some eid := by
              rw [hd, hu] at heidlook; exact heidlook
            obtain ⟨e2, he2, he2c, he2i⟩ := empIdOf_spec _ _ _ hE'
            have hinj := List.inj_on_of_nodup_map hwf.1
            have he12 : e1 = e2 := hinj he1 he2 (by rw [he1i, he2i, hiteq])
            exact hcc' (by rw [← he1c, he12, he2c])
          · -- fresh id: strictly above every existing id
            obtain ⟨e1, he1, _, he1i⟩ := empIdOf_spec _ _ _ hc'look
            have hlt := hwf.2 e1 he1
            rw [heid, hv] at hiteq
            omega
        have hstagedkey : ∀ it ∈ staged, it.sheet_id = sid ∧ it.employee_id = eid :=
          fun it hit => stageItems_key cols meta sid eid r it hit
        -- the combined no-duplicate fact for the pre-flush state
        have hnd1 : TriplesND ((delKey (sid, eid) σ.cur.items ++ σ.pending) ++ staged) := by
          refine TriplesND_append ?_ (stageItems_triples_nd cols meta sid eid r hcols) ?_
          · refine TriplesND_sublist ?_ hnd
            exact List.Sublist.append (List.filter_sublist _) (List.Sublist.refl _)
          · intro a ha b hb habs
            rcases List.mem_append.mp ha with ha | ha
            · have hane : itKey a ≠ (sid, eid) := by
                have := List.mem_filter.mp ha
                simpa using this.2
              have hbk : itKey b = (sid, eid) := by
                obtain ⟨h1, h2⟩ := hstagedkey b hb
                unfold itKey
                rw [h1, h2]
              exact hane ((itTriple_eq_key habs).trans hbk)
            · have hbe : b.employee_id = eid := (hstagedkey b hb).2
              have hae : a.employee_id ≠ eid := hpendne a ha
              have : a.employee_id = b.employee_id := congrArg (fun t => t.2.1) habs
              rw [this, hbe] at hae
              exact hae rfl
        have hnd1' : TriplesND (delKey (sid, eid) σ.cur.items ++ (σ.pending ++ staged)) := by
          rw [← List.append_assoc]
          exact hnd1
        -- the post-step state satisfies the invariant again
        unfold flushMaybe
        dsimp only
        by_cases hb : (σ.cnt + staged.length) % batchSize = 0
        · rw [if_pos hb]
          refine ih _ (c :: done) ?_ hcodes.2 ?_ ?_ ?_ ?_
          · exact hwfd
          · intro r' hr' hs'
            simp only [List.mem_cons, not_or]
            constructor
            · intro hceq
              apply hcodes.1
              rw [← hceq]
              exact List.mem_map_of_mem rowCode
                (List.mem_filter.mpr ⟨hr', by simp [hs']⟩)
            · exact hdone r' (by simp [hr']) hs'
          · dsimp only
            rw [List.append_nil, hdit]
            exact hnd1'
          · dsimp only
            rw [hdit]
            exact hnd1'
          · intro it hit
            cases hit
        · rw [if_neg hb]
          refine ih _ (c :: done) ?_ hcodes.2 ?_ ?_ ?_ ?_
          · exact hwfd
          · intro r' hr' hs'
            simp only [List.mem_cons, not_or]
            constructor
            · intro hceq
              apply hcodes.1
              rw [← hceq]
              exact List.mem_map_of_mem rowCode
                (List.mem_filter.mpr ⟨hr', by simp [hs']⟩)
            · exact hdone r' (by simp [hr']) hs'
          · dsimp only
            rw [hdit]
            exact hnd1'
          · exact hcomm
          · intro it hit
            dsimp only at hit
            rcases List.mem_append.mp hit with hit | hit
            · obtain ⟨hsh, c', hc'done, hc'look⟩ := hpend it hit
              refine ⟨hsh, c', by simp [hc'done], ?_⟩
              rcases upsertEmp_cases σ.cur r with ⟨_, hu⟩ | ⟨hE, hu, _⟩
              · rw [hd, hu]; exact hc'look
              · rw [hd, hu]
                dsimp only
                rw [empIdOf_append_of_ne]
                · exact hc'look
                · intro x hx
                  have : x = (⟨σ.cur.nextEmpId, rowCode r, rowName r, rowStatus r⟩ : Employee) := by
                    simpa using hx
                  rw [this]
                  dsimp only
                  intro hxe
                  exact hdone r (by simp) hskip' (by rw [hxe]; exact hc'done)
            · refine ⟨(hstagedkey it hit).1, c, by simp, ?_⟩
              rw [(hstagedkey it hit).2]
              exact heidlook

theorem postItems_key (meta : List (String × Group)) (sid eid : Nat)
    (dl : List (Group × List (String × Option Rat))) (it : SalaryItem)
    (h : it ∈ postItems meta sid eid dl) :
    it.sheet_id = sid ∧ it.employee_id = eid := by
  unfold postItems at h
  rcases List.mem_flatMap.mp h with ⟨gl, _, hgl⟩
  rcases List.mem_filterMap.mp hgl with ⟨nv, _, hnv⟩
  cases hv : nv.2 with
  | none => rw [hv] at hnv; cases hnv
  | some q =>
      rw [hv] at hnv
      have : (⟨sid, eid, (metaLookup meta nv.1).getD gl.1, nv.1, q⟩ : SalaryItem) = it := by
        simpa using hnv
      rw [← this]
      exact ⟨rfl, rfl⟩

theorem postItems_names_sublist (meta : List (String × Group)) (sid eid : Nat)
    (dl : List (Group × List (String × Option Rat))) :
    ((postItems meta sid eid dl).map (fun it => it.item_name)).Sublist
      (dl.flatMap (fun gl => gl.2.map (fun nv => nv.1))) := by
  induction dl with
  | nil => simp [postItems]
  | cons gl rest ih =>
      unfold postItems
      rw [List.flatMap_cons, List.flatMap_cons, List.map_append]
      refine List.Sublist.append ?_ ih
      induction gl.2 with
      | nil => simp
      | cons nv tl ihin =>
          cases hv : nv.2 with
          | none =>
              rw [List.filterMap_cons_none (by rw [hv]; rfl), List.map_cons]
              exact ihin.trans (List.sublist_cons_self nv.1 (tl.map (fun nv => nv.1)))
          | some q =>
              rw [List.filterMap_cons_some (by rw [hv]; rfl), List.map_cons,
                List.map_cons]
              exact List.Sublist.cons₂ nv.1 ihin

theorem postItems_triples_nd (meta : List (String × Group)) (sid eid : Nat)
    (dl : List (Group × List (String × Option Rat)))
    (hnames : (dl.flatMap (fun gl => gl.2.map (fun nv => nv.1))).Nodup) :
    TriplesND (postItems meta sid eid dl) := by
  have hnd : ((postItems meta sid eid dl).map (fun it => it.item_name)).Nodup :=
    (postItems_names_sublist meta sid eid dl).nodup hnames
  unfold TriplesND
  rw [List.Nodup, List.pairwise_map]
  rw [List.Nodup, List.pairwise_map] at hnd
  refine hnd.imp ?_
  intro a b hne heq
  exact hne (congrArg (fun t => t.2.2) heq)

/-- The replaced item set of a successful POST keeps the invariant. -/
theorem post_replace_nd (db : DB) (sid eid : Nat)
    (dl : List (Group × List (String × Option Rat)))
    (hinv : InvDB db)
    (hnames : (dl.flatMap (fun gl => gl.2.map (fun nv => nv.1))).Nodup) :
    TriplesND (db.items.filter (fun it =>
        !(decide (it.sheet_id = sid ∧ it.employee_id = eid))) ++
      postItems db.meta sid eid dl) := by
  refine TriplesND_append ?_ (postItems_triples_nd db.meta sid eid dl hnames) ?_
  · exact TriplesND_sublist (List.filter_sublist _) hinv
  · intro a ha b hb habs
    have hmem := (List.mem_filter.mp ha).2
    rw [Bool.not_eq_true', decide_eq_false_iff_not] at hmem
    obtain ⟨hb1, hb2⟩ := postItems_key db.meta sid eid dl b hb
    have h1 : a.sheet_id = b.sheet_id := congrArg Prod.fst habs
    have h2 : a.employee_id = b.employee_id := congrArg (fun t => t.2.1) habs
    exact hmem ⟨h1.trans hb1, h2.trans hb2⟩

/-- POST /salary_data/data preserves the invariant when the request's item
names are distinct across the whole `datalist`. -/
theorem post_preserves_inv (db : DB) (month empCode fullName status : String)
    (dl : List (Group × List (String × Option Rat)))
    (hinv : InvDB db)
    (hnames : (dl.flatMap (fun gl => gl.2.map (fun nv => nv.1))).Nodup) :
    InvDB (salaryDataPost db month empCode fullName status dl).1 := by
  unfold salaryDataPost
  by_cases hreq : month = "" ∨ empCode = ""
  · rw [if_pos hreq]
    exact hinv
  · rw [if_neg hreq]
    dsimp only
    cases hs : db.sheets.find? (fun s => s.month_year = month) with
    | some s =>
        dsimp only
        by_cases hany : db.employees.any (fun e => e.emp_code = empCode) = true
        · rw [if_pos hany]
          cases hE : empIdOf (db.employees.map (fun e => if e.emp_code = empCode then
              { e with full_name := fullName, status_name := status } else e)) empCode with
          | none => exact hinv
          | some eid => exact post_replace_nd db s.sheet_id eid dl hinv hnames
        · rw [if_neg hany]
          cases hE : empIdOf (db.employees ++ [⟨db.nextEmpId, empCode, fullName, status⟩])
              empCode with
          | none => exact hinv
          | some eid => exact post_replace_nd db s.sheet_id eid dl hinv hnames
    | none =>
        dsimp only
        by_cases hany : db.employees.any (fun e => e.emp_code = empCode) = true
        · rw [if_pos hany]
          cases hE : empIdOf (db.employees.map (fun e => if e.emp_code = empCode then
              { e with full_name := fullName, status_name := status } else e)) empCode with
          | none => exact hinv
          | some eid => exact post_replace_nd db db.nextSheetId eid dl hinv hnames
        · rw [if_neg hany]
          cases hE : empIdOf (db.employees ++ [⟨db.nextEmpId, empCode, fullName, status⟩])
              empCode with
          | none => exact hinv
          | some eid => exact post_replace_nd db db.nextSheetId eid dl hinv hnames

theorem importCur0_frame (db : DB) (m : String) :
    (importCur0 db m).employees = db.employees ∧
    (importCur0 db m).items = db.items ∧
    (importCur0 db m).meta = db.meta ∧
    (importCur0 db m).nextEmpId = db.nextEmpId := by
  unfold importCur0
  cases db.sheets.find? (fun s => s.month_year = m) <;> exact ⟨rfl, rfl, rfl, rfl⟩

/-- The bulk import preserves the invariant when the file's salary columns
are distinct and no employee code appears on two non-skipped rows. -/
theorem upload_preserves_inv (db : DB) (f : Frame)
    (hinv : InvDB db) (hwf : WFemp db)
    (hcols : (salaryColsOf f).Nodup)
    (hcodes : ((f.rows.filter (fun r => !skipsRow r)).map rowCode).Nodup) :
    InvDB (importDf db f none).1 := by
  unfold importDf
  cases hr : f.rows with
  | nil => exact hinv
  | cons r0 rest =>
      dsimp only
      by_cases hunk : unknownColsOf db f ≠ []
      · rw [if_pos hunk]
        exact hinv
      · rw [if_neg hunk]
        rw [runRowsF_none]
        dsimp only
        have hfr := importCur0_frame db (monthValueOf r0)
        have hloop := loop4 (salaryColsOf f) db.meta
          (importSheetOf db (monthValueOf r0)).sheet_id hcols (r0 :: rest)
          ⟨importCur0 db (monthValueOf r0), db, [], 0⟩ []
          (by
            constructor
            · rw [show (⟨importCur0 db (monthValueOf r0), db, [], 0⟩ : LoopSt).cur.employees
                  = db.employees from hfr.1]
              exact hwf.1
            · intro e he
              rw [show (⟨importCur0 db (monthValueOf r0), db, [], 0⟩ : LoopSt).cur.nextEmpId
                  = db.nextEmpId from hfr.2.2.2]
              exact hwf.2 e (by rw [← hfr.1]; exact he))
          (by rw [← hr]; exact hcodes)
          (by intro r' _ _; simp)
          (by
            show TriplesND ((importCur0 db (monthValueOf r0)).items ++ [])
            rw [List.append_nil, hfr.2.1]
            exact hinv)
          hinv
          (by intro it hit; cases hit)
        set σe := runRows (salaryColsOf f) db.meta
          (importSheetOf db (monthValueOf r0)).sheet_id (r0 :: rest)
          ⟨importCur0 db (monthValueOf r0), db, [], 0⟩ with hσe
        show InvDB (finalFlush σe).committed
        unfold finalFlush
        by_cases hp : σe.pending = []
        · rw [if_pos hp]
          exact hloop.2.2
        · rw [if_neg hp]
          show TriplesND (σe.cur.items ++ σe.pending)
          exact hloop.2.1

/-- Claim C4, amended: the at-most-one-row-per-(sheet, employee, item name)
invariant is preserved by both write operations provided the request itself
does not repeat an item name for one employee: for the single-employee
upsert, the item names across the whole `datalist` are distinct; for the
bulk import, the salary columns are distinct and no employee code appears on
two (non-skipped) data rows.  (Without those provisos a single request can
insert the same triple twice — see the counterexample.) -/
theorem C4_invariant_amended :
    (∀ (db : DB) (month empCode fullName status : String)
       (dl : List (Group × List (String × Option Rat))),
      InvDB db → (dl.flatMap (fun gl => gl.2.map (fun nv => nv.1))).Nodup →
      InvDB (salaryDataPost db month empCode fullName status dl).1) ∧
    (∀ (db : DB) (f : Frame),
      InvDB db → WFemp db → (salaryColsOf f).Nodup →
      ((f.rows.filter (fun r => !skipsRow r)).map rowCode).Nodup →
      InvDB (importDf db f none).1) :=
  ⟨post_preserves_inv, upload_preserves_inv⟩

/-- An empty store (trivially satisfying the invariant). -/
def dbC4 : DB := ⟨[], [], [], [], 1, 1⟩

/-- Claim C4 is `corrected`: one well-formed POST whose `datalist` repeats
the item name "A" under two buckets inserts two rows with the same
(sheet_id, employee_id, item_name) triple — delete-then-insert removes prior
rows but does not deduplicate within one request. -/
theorem C4_counterexample :
    InvDB dbC4 ∧
      ¬ InvDB (salaryDataPost dbC4 "Nov" "E1" "N" "ok"
        [(Group.earnings, [("A", some 1)]), (Group.deductions, [("A", some 2)])]).1 := by
  constructor
  · decide
  · decide

/-- Witness for the amended C4 theorem at concrete inputs. -/
theorem C4_invariant_amended_witness :
    InvDB (salaryDataPost dbC4 "Nov" "E1" "N" "ok"
      [(Group.earnings, [("A", some 1), ("B", some 2)])]).1 ∧
    InvDB (importDf dbC5 fC5 none).1 := by
  constructor
  · exact C4_invariant_amended.1 dbC4 "Nov" "E1" "N" "ok"
      [(Group.earnings, [("A", some 1), ("B", some 2)])] (by decide) (by decide)
  · exact C4_invariant_amended.2 dbC5 fC5 (by decide) (by decide) (by decide)
      (by decide)

/-! ## Claim C6: re-importing the same file is idempotent -/

/-- The employees the loop inserts for a row list, given the employees and
autoincrement counter it starts from. -/
def newEmps (es : List Employee) (nid : Nat) : List XRow → List Employee
  | [] => []
  | r :: rs =>
      if skipsRow r then newEmps es nid rs
      else
        match empIdOf es (rowCode r) with
        | some _ => newEmps es nid rs
        | none =>
            ⟨nid, rowCode r, rowName r, rowStatus r⟩ ::
              newEmps (es ++ [⟨nid, rowCode r, rowName r, rowStatus r⟩]) (nid + 1) rs

theorem empIdOf_none_of_append {es ext : List Employee} {c : String}
    (h : empIdOf (es ++ ext) c = none) : empIdOf es c = none := by
  rw [empIdOf_none_iff] at h ⊢
  intro e he
  exact h e (List.mem_append.mpr (Or.inl he))

/-- Every inserted employee's code is absent from the starting employees. -/
theorem newEmps_fresh (rs : List XRow) :
    ∀ (es : List Employee) (nid : Nat) (e' : Employee),
    e' ∈ newEmps es nid rs → empIdOf es e'.emp_code = none := by
  induction rs with
  | nil => intro es nid e' h; cases h
  | cons r rest ih =>
      intro es nid e' h
      unfold newEmps at h
      by_cases hskip : skipsRow r = true
      · rw [if_pos hskip] at h
        exact ih es nid e' h
      · rw [if_neg hskip] at h
        cases hE : empIdOf es (rowCode r) with
        | some i =>
            rw [hE] at h
            exact ih es nid e' h
        | none =>
            rw [hE] at h
            rcases List.mem_cons.mp h with rfl | h

            · exact hE
            · exact empIdOf_none_of_append (ih _ _ e' h)

theorem newEmps_unfold_cons (es : List Employee) (nid : Nat) (r : XRow)
    (rs : List XRow) :
    newEmps es nid (r :: rs) =
      if skipsRow r = true then newEmps es nid rs
      else
        match empIdOf es (rowCode r) with
        | some _ => newEmps es nid rs
        | none =>
            ⟨nid, rowCode r, rowName r, rowStatus r⟩ ::
              newEmps (es ++ [⟨nid, rowCode r, rowName r, rowStatus r⟩]) (nid + 1) rs := rfl

theorem newEmps_cons_skip (es : List Employee) (nid : Nat) (r : XRow)
    (rs : List XRow) (h : skipsRow r = true) :
    newEmps es nid (r :: rs) = newEmps es nid rs := by
  rw [newEmps_unfold_cons, if_pos h]

theorem newEmps_cons_found (es : List Employee) (nid : Nat) (r : XRow)
    (rs : List XRow) (i : Nat) (h1 : skipsRow r = false)
    (h2 : empIdOf es (rowCode r) = some i) :
    newEmps es nid (r :: rs) = newEmps es nid rs := by
  rw [newEmps_unfold_cons, if_neg (by simp [h1]), h2]

theorem newEmps_cons_new (es : List Employee) (nid : Nat) (r : XRow)
    (rs : List XRow) (h1 : skipsRow r = false)
    (h2 : empIdOf es (rowCode r) = none) :
    newEmps es nid (r :: rs) =
      ⟨nid, rowCode r, rowName r, rowStatus r⟩ ::
        newEmps (es ++ [⟨nid, rowCode r, rowName r, rowStatus r⟩]) (nid + 1) rs := by
  rw [newEmps_unfold_cons, if_neg (by simp [h1]), h2]

theorem flushMaybe_emp_frame (σ : LoopSt) :
    (flushMaybe σ).cur.employees = σ.cur.employees ∧
    (flushMaybe σ).cur.nextEmpId = σ.cur.nextEmpId := by
  unfold flushMaybe
  by_cases h : σ.cnt % batchSize = 0
  · rw [if_pos h]; exact ⟨rfl, rfl⟩
  · rw [if_neg h]; exact ⟨rfl, rfl⟩

/-- The run's employees are the starting employees followed by exactly the
`newEmps` insertions, and the counter advances by their number. -/
theorem runRows_employees (cols : List String) (meta : List (String × Group))
    (sid : Nat) (rs : List XRow) :
    ∀ σ : LoopSt,
    (runRows cols meta sid rs σ).cur.employees =
      σ.cur.employees ++ newEmps σ.cur.employees σ.cur.nextEmpId rs ∧
    (runRows cols meta sid rs σ).cur.nextEmpId =
      σ.cur.nextEmpId + (newEmps σ.cur.employees σ.cur.nextEmpId rs).length := by
  induction rs with
  | nil => intro σ; constructor <;> simp [runRows, newEmps]
  | cons r rest ih =>
      intro σ
      unfold runRows
      by_cases hskip : skipsRow r = true
      · rw [processRow_skip cols meta sid σ r hskip]
        rw [newEmps_cons_skip σ.cur.employees σ.cur.nextEmpId r rest hskip]
        exact ih σ
      · have hstep : processRow cols meta sid σ r =
            flushMaybe ⟨{ upsertEmp σ.cur r with
                items := delKey (sid, rowEid σ.cur r) (upsertEmp σ.cur r).items },
              σ.committed,
              σ.pending ++ stageItems cols meta sid (rowEid σ.cur r) r,
              σ.cnt + (stageItems cols meta sid (rowEid σ.cur r) r).length⟩ := by
          unfold processRow
          rw [if_neg hskip]
        rw [hstep]
        obtain ⟨hfe, hfn⟩ := flushMaybe_emp_frame ⟨{ upsertEmp σ.cur r with
            items := delKey (sid, rowEid σ.cur r) (upsertEmp σ.cur r).items },
          σ.committed,
          σ.pending ++ stageItems cols meta sid (rowEid σ.cur r) r,
          σ.cnt + (stageItems cols meta sid (rowEid σ.cur r) r).length⟩
        obtain ⟨ihe, ihn⟩ := ih (flushMaybe ⟨{ upsertEmp σ.cur r with
            items := delKey (sid, rowEid σ.cur r) (upsertEmp σ.cur r).items },
          σ.committed,
          σ.pending ++ stageItems cols meta sid (rowEid σ.cur r) r,
          σ.cnt + (stageItems cols meta sid (rowEid σ.cur r) r).length⟩)
        rw [ihe, ihn, hfe, hfn]
        dsimp only
        have hskip' : skipsRow r = false := by
          cases h : skipsRow r
          · rfl
          · exact absurd h hskip
        rcases upsertEmp_cases σ.cur r with ⟨hE, hu⟩ | ⟨hE, hu, _⟩
        · rw [hu]
          rw [newEmps_cons_found σ.cur.employees σ.cur.nextEmpId r rest
            (rowEid σ.cur r) hskip' hE]
          exact ⟨rfl, rfl⟩
        · rw [hu]
          dsimp only
          rw [newEmps_cons_new σ.cur.employees σ.cur.nextEmpId r rest hskip' hE]
          constructor
          · rw [List.append_assoc]
            rfl
          · rw [List.length_cons]
            omega

/-- The batching bookkeeping: the counter is a multiple of the batch size
exactly when the staging list is empty. -/
def IB1 (σ : LoopSt) : Prop := σ.cnt % batchSize = 0 ↔ σ.pending = []

/-- Either uncommitted staged items remain, or the session view is fully
committed. -/
def CC (σ : LoopSt) : Prop := σ.pending ≠ [] ∨ σ.committed = σ.cur

theorem processRow_IB1 (cols : List String) (meta : List (String × Group))
    (sid : Nat) (σ : LoopSt) (r : XRow) (h : IB1 σ) :
    IB1 (processRow cols meta sid σ r) := by
  unfold processRow
  by_cases hskip : skipsRow r = true
  · rw [if_pos hskip]; exact h
  · rw [if_neg hskip]
    dsimp only
    unfold flushMaybe
    dsimp only
    by_cases hb : (σ.cnt + (stageItems cols meta sid (rowEid σ.cur r) r).length)
        % batchSize = 0
    · rw [if_pos hb]
      exact ⟨fun _ => rfl, fun _ => hb⟩
    · rw [if_neg hb]
      constructor
      · intro hc; exact absurd hc hb
      · intro hp
        exfalso
        dsimp only at hp
        rw [List.append_eq_nil] at hp
        have hcnt0 : σ.cnt % batchSize = 0 := h.mpr hp.1
        have hlen0 : (stageItems cols meta sid (rowEid σ.cur r) r).length = 0 := by
          rw [hp.2]; rfl
        rw [hlen0] at hb
        exact hb (by simpa using hcnt0)

theorem processRow_CC (cols : List String) (meta : List (String × Group))
    (sid : Nat) (σ : LoopSt) (r : XRow) (hIB : IB1 σ)
    (h : CC σ ∨ skipsRow r = false) :
    CC (processRow cols meta sid σ r) := by
  by_cases hskip : skipsRow r = true
  · rw [processRow_skip cols meta sid σ r hskip]
    rcases h with h | h
    · exact h
    · rw [hskip] at h; cases h
  · unfold processRow
    rw [if_neg hskip]
    dsimp only
    unfold flushMaybe
    dsimp only
    by_cases hb : (σ.cnt + (stageItems cols meta sid (rowEid σ.cur r) r).length)
        % batchSize = 0
    · rw [if_pos hb]
      exact Or.inr rfl
    · rw [if_neg hb]
      left
      dsimp only
      intro hp
      rw [List.append_eq_nil] at hp
      have hcnt0 : σ.cnt % batchSize = 0 := hIB.mpr hp.1
      have hlen0 : (stageItems cols meta sid (rowEid σ.cur r) r).length = 0 := by
        rw [hp.2]; rfl
      rw [hlen0] at hb
      exact hb (by simpa using hcnt0)

theorem runRows_IB1 (cols : List String) (meta : List (String × Group))
    (sid : Nat) (rs : List XRow) :
    ∀ σ : LoopSt, IB1 σ → IB1 (runRows cols meta sid rs σ) := by
  induction rs with
  | nil => intro σ h; exact h
  | cons r rest ih =>
      intro σ h
      exact ih _ (processRow_IB1 cols meta sid σ r h)

theorem runRows_IB1_CC (cols : List String) (meta : List (String × Group))
    (sid : Nat) (rs : List XRow) :
    ∀ σ : LoopSt, IB1 σ → CC σ →
    CC (runRows cols meta sid rs σ) := by
  induction rs with
  | nil => intro σ _ h; exact h
  | cons r rest ih =>
      intro σ hIB hCC
      exact ih _ (processRow_IB1 cols meta sid σ r hIB)
        (processRow_CC cols meta sid σ r hIB (Or.inl hCC))

/-- After the loop, either no commit ever happened (the committed state is
the starting one) or the final state is consistent (`CC`). -/
theorem runRows_committed_or_CC (cols : List String) (meta : List (String × Group))
    (sid : Nat) (rs : List XRow) :
    ∀ σ : LoopSt, IB1 σ →
    (runRows cols meta sid rs σ).committed = σ.committed ∨
      CC (runRows cols meta sid rs σ) := by
  induction rs with
  | nil => intro σ _; exact Or.inl rfl
  | cons r rest ih =>
      intro σ hIB
      unfold runRows
      by_cases hskip : skipsRow r = true
      · rw [processRow_skip cols meta sid σ r hskip]
        exact ih σ hIB
      · right
        have hskip' : skipsRow r = false := by
          cases h : skipsRow r
          · rfl
          · exact absurd h hskip
        exact runRows_IB1_CC cols meta sid rest _
          (processRow_IB1 cols meta sid σ r hIB)
          (processRow_CC cols meta sid σ r hIB (Or.inr hskip'))

theorem finalFlush_CC (σ : LoopSt) (h : CC σ) :
    (finalFlush σ).committed = (finalFlush σ).cur := by
  unfold finalFlush
  by_cases hp : σ.pending = []
  · rw [if_pos hp]
    rcases h with h | h
    · exact absurd hp h
    · exact h
  · rw [if_neg hp]

theorem rowEid_of_found (d : DB) (r : XRow) (i : Nat)
    (hE : empIdOf d.employees (rowCode r) = some i) :
    upsertEmp d r = d ∧ rowEid d r = i := by
  have hu : upsertEmp d r = d := by unfold upsertEmp; rw [hE]
  refine ⟨hu, ?_⟩
  unfold rowEid
  rw [hu, hE]
  rfl

theorem delKey_keep_append (k : Nat × Nat) (K : List (Nat × Nat))
    (S F : List SalaryItem) :
    delKey k (keepKeys K S ++ F) = keepKeys (k :: K) S ++ delKey k F := by
  show (keepKeys K S ++ F).filter _ = _
  rw [List.filter_append]
  have h := delKey_keepKeys k K S
  unfold delKey at h ⊢
  rw [h]

/-- The bookkeeping of one non-skipped loop step: the counter advances by
the staged count, the employees become the upserted ones, and items/staging
follow the delete-stage-flush discipline. -/
theorem processRow_shape (cols : List String) (meta : List (String × Group))
    (sid : Nat) (σ : LoopSt) (r : XRow) (hskip : skipsRow r = false) :
    (processRow cols meta sid σ r).cnt =
      σ.cnt + (stageItems cols meta sid (rowEid σ.cur r) r).length ∧
    (processRow cols meta sid σ r).cur.employees = (upsertEmp σ.cur r).employees ∧
    (processRow cols meta sid σ r).cur.nextEmpId = (upsertEmp σ.cur r).nextEmpId ∧
    ((σ.cnt + (stageItems cols meta sid (rowEid σ.cur r) r).length) % batchSize = 0 →
      (processRow cols meta sid σ r).cur.items =
        delKey (sid, rowEid σ.cur r) σ.cur.items ++
          (σ.pending ++ stageItems cols meta sid (rowEid σ.cur r) r) ∧
      (processRow cols meta sid σ r).pending = [] ∧
      (processRow cols meta sid σ r).committed = (processRow cols meta sid σ r).cur) ∧
    (¬((σ.cnt + (stageItems cols meta sid (rowEid σ.cur r) r).length) % batchSize = 0) →
      (processRow cols meta sid σ r).cur.items =
        delKey (sid, rowEid σ.cur r) σ.cur.items ∧
      (processRow cols meta sid σ r).pending =
        σ.pending ++ stageItems cols meta sid (rowEid σ.cur r) r ∧
      (processRow cols meta sid σ r).committed = σ.committed) := by
  have hitems : (upsertEmp σ.cur r).items = σ.cur.items := (upsertEmp_frame σ.cur r).2.1
  unfold processRow
  rw [if_neg (by simp [hskip])]
  dsimp only
  unfold flushMaybe
  dsimp only
  by_cases hb : (σ.cnt + (stageItems cols meta sid (rowEid σ.cur r) r).length)
      % batchSize = 0
  · rw [if_pos hb]
    exact ⟨rfl, rfl, rfl,
      fun _ => ⟨by rw [hitems], rfl, rfl⟩,
      fun hc => absurd hb hc⟩
  · rw [if_neg hb]
    exact ⟨rfl, rfl, rfl,
      fun hc => absurd hc hb,
      fun _ => ⟨by rw [hitems], rfl, rfl⟩⟩

/-- The paired-run lemma behind idempotence: running the loop on two stores
that differ only by already-replaced keys (`K`) keeps them in lockstep — the
same staged items, counters, employees, and a common suffix of freshly
flushed items over each store's kept remainder. -/
theorem pairRun (cols : List String) (meta : List (String × Group)) (sid : Nat)
    (S T : List SalaryItem) :
    ∀ (rs : List XRow) (σ τ : LoopSt) (K : List (Nat × Nat)) (F : List SalaryItem),
    τ.cnt = σ.cnt →
    τ.pending = σ.pending →
    τ.cur.employees = σ.cur.employees ++ newEmps σ.cur.employees σ.cur.nextEmpId rs →
    τ.cur.nextEmpId = σ.cur.nextEmpId +
      (newEmps σ.cur.employees σ.cur.nextEmpId rs).length →
    σ.cur.items = keepKeys K S ++ F →
    τ.cur.items = keepKeys K T ++ F →
    (∀ it ∈ F, itKey it ∈ K) →
    (∀ it ∈ σ.pending, itKey it ∈ K) →
    ∃ K' F',
      (runRows cols meta sid rs σ).cur.items = keepKeys K' S ++ F' ∧
      (runRows cols meta sid rs τ).cur.items = keepKeys K' T ++ F' ∧
      (∀ it ∈ F', itKey it ∈ K') ∧
      (∀ it ∈ (runRows cols meta sid rs σ).pending, itKey it ∈ K') ∧
      (runRows cols meta sid rs τ).cnt = (runRows cols meta sid rs σ).cnt ∧
      (runRows cols meta sid rs τ).pending = (runRows cols meta sid rs σ).pending ∧
      (runRows cols meta sid rs τ).cur.employees =
        (runRows cols meta sid rs σ).cur.employees ∧
      (runRows cols meta sid rs τ).cur.nextEmpId =
        (runRows cols meta sid rs σ).cur.nextEmpId := by
  intro rs
  induction rs with
  | nil =>
      intro σ τ K F hcnt hpend hemps hnid hσ hτ hF hP
      refine ⟨K, F, hσ, hτ, hF, hP, hcnt, hpend, ?_, ?_⟩
      · show τ.cur.employees = σ.cur.employees
        rw [hemps]; simp [newEmps]
      · show τ.cur.nextEmpId = σ.cur.nextEmpId
        rw [hnid]; simp [newEmps]
  | cons r rest ih =>
      intro σ τ K F hcnt hpend hemps hnid hσ hτ hF hP
      unfold runRows
      by_cases hskip : skipsRow r = true
      · rw [processRow_skip cols meta sid σ r hskip,
           processRow_skip cols meta sid τ r hskip]
        rw [newEmps_cons_skip _ _ _ _ hskip] at hemps hnid
        exact ih σ τ K F hcnt hpend hemps hnid hσ hτ hF hP
      · have hskip' : skipsRow r = false := by
          cases h : skipsRow r
          · rfl
          · exact absurd h hskip
        -- the two runs resolve the row to the same employee id
        obtain ⟨i, hiσ, hiτ, hempsP, hnidP⟩ :
            ∃ i, rowEid σ.cur r = i ∧ rowEid τ.cur r = i ∧
              (upsertEmp τ.cur r).employees = (upsertEmp σ.cur r).employees ++
                newEmps (upsertEmp σ.cur r).employees (upsertEmp σ.cur r).nextEmpId rest ∧
              (upsertEmp τ.cur r).nextEmpId = (upsertEmp σ.cur r).nextEmpId +
                (newEmps (upsertEmp σ.cur r).employees
                  (upsertEmp σ.cur r).nextEmpId rest).length := by
          cases hE : empIdOf σ.cur.employees (rowCode r) with
          | some i =>
              have hfresh : ∀ x ∈ newEmps σ.cur.employees σ.cur.nextEmpId (r :: rest),
                  x.emp_code ≠ rowCode r := by
                intro x hx hxc
                have hn := newEmps_fresh (r :: rest) σ.cur.employees σ.cur.nextEmpId x hx
                rw [hxc, hE] at hn
                cases hn
              have hEτ : empIdOf τ.cur.employees (rowCode r) = some i := by
                rw [hemps, empIdOf_append_of_ne _ _ _ hfresh]
                exact hE
              obtain ⟨huσ, hiσ⟩ := rowEid_of_found σ.cur r i hE
              obtain ⟨huτ, hiτ⟩ := rowEid_of_found τ.cur r i hEτ
              refine ⟨i, hiσ, hiτ, ?_, ?_⟩
              · rw [huσ, huτ, hemps, newEmps_cons_found _ _ _ _ i hskip' hE]
              · rw [huσ, huτ, hnid, newEmps_cons_found _ _ _ _ i hskip' hE]
          | none =>
              have hne : newEmps σ.cur.employees σ.cur.nextEmpId (r :: rest) =
                  ⟨σ.cur.nextEmpId, rowCode r, rowName r, rowStatus r⟩ ::
                    newEmps (σ.cur.employees ++
                      [⟨σ.cur.nextEmpId, rowCode r, rowName r, rowStatus r⟩])
                      (σ.cur.nextEmpId + 1) rest :=
                newEmps_cons_new _ _ _ _ hskip' hE
              have hτemps : τ.cur.employees =
                  (σ.cur.employees ++
                    [⟨σ.cur.nextEmpId, rowCode r, rowName r, rowStatus r⟩]) ++
                    newEmps (σ.cur.employees ++
                      [⟨σ.cur.nextEmpId, rowCode r, rowName r, rowStatus r⟩])
                      (σ.cur.nextEmpId + 1) rest := by
                rw [hemps, hne, List.append_assoc]
                rfl
              have hfresh' : ∀ x ∈ newEmps (σ.cur.employees ++
                  [⟨σ.cur.nextEmpId, rowCode r, rowName r, rowStatus r⟩])
                  (σ.cur.nextEmpId + 1) rest, x.emp_code ≠ rowCode r := by
                intro x hx hxc
                have hn := newEmps_fresh rest _ _ x hx
                rw [hxc] at hn
                have hself := empIdOf_append_self σ.cur.employees
                  ⟨σ.cur.nextEmpId, rowCode r, rowName r, rowStatus r⟩
                rw [hn] at hself
                cases hself
              have hEτ : empIdOf τ.cur.employees (rowCode r) = some σ.cur.nextEmpId := by
                rw [hτemps, empIdOf_append_of_ne _ _ _ hfresh']
                exact empIdOf_append_self σ.cur.employees
                  ⟨σ.cur.nextEmpId, rowCode r, rowName r, rowStatus r⟩
              obtain ⟨huτ, hiτ⟩ := rowEid_of_found τ.cur r σ.cur.nextEmpId hEτ
              have huσ : upsertEmp σ.cur r = { σ.cur with
                  employees := σ.cur.employees ++
                    [⟨σ.cur.nextEmpId, rowCode r, rowName r, rowStatus r⟩],
                  nextEmpId := σ.cur.nextEmpId + 1 } := by
                unfold upsertEmp
                rw [hE]
              have hiσ : rowEid σ.cur r = σ.cur.nextEmpId := by
                unfold rowEid
                rw [huσ]
                dsimp only
                rw [empIdOf_append_self σ.cur.employees
                  ⟨σ.cur.nextEmpId, rowCode r, rowName r, rowStatus r⟩]
                rfl
              refine ⟨σ.cur.nextEmpId, hiσ, hiτ, ?_, ?_⟩
              · rw [huτ, huσ, hτemps]
              · rw [huτ, huσ, hnid, hne]
                dsimp only
                rw [List.length_cons]
                omega
        -- both sides take the same-shaped step
        obtain ⟨hcσ, heσ, hnσ, hflσ, hnfσ⟩ := processRow_shape cols meta sid σ r hskip'
        obtain ⟨hcτ, heτ, hnτ, hflτ, hnfτ⟩ := processRow_shape cols meta sid τ r hskip'
        rw [hiσ] at hcσ hflσ hnfσ
        rw [hiτ] at hcτ hflτ hnfτ
        rw [hcnt] at hcτ
        rw [hcnt, hpend] at hflτ hnfτ
        by_cases hb : (σ.cnt + (stageItems cols meta sid i r).length) % batchSize = 0
        · obtain ⟨hiσ', hpσ', _⟩ := hflσ hb
          obtain ⟨hiτ', hpτ', _⟩ := hflτ hb
          refine ih (processRow cols meta sid σ r) (processRow cols meta sid τ r)
            ((sid, i) :: K)
            (delKey (sid, i) F ++ (σ.pending ++ stageItems cols meta sid i r))
            (by rw [hcσ, hcτ]) (by rw [hpσ', hpτ'])
            (by rw [heσ, heτ, hnσ, hempsP]) (by rw [hnσ, hnτ, heσ, hnidP])
            ?_ ?_ ?_ ?_
          · rw [hiσ', hσ, delKey_keep_append, List.append_assoc]
          · rw [hiτ', hτ, delKey_keep_append, List.append_assoc]
          · intro it hit
            rcases List.mem_append.mp hit with hit | hit
            · exact List.mem_cons_of_mem _ (hF it (List.mem_of_mem_filter hit))
            · rcases List.mem_append.mp hit with hit | hit
              · exact List.mem_cons_of_mem _ (hP it hit)
              · obtain ⟨h1, h2⟩ := stageItems_key cols meta sid i r it hit
                have : itKey it = (sid, i) := by unfold itKey; rw [h1, h2]
                rw [this]
                exact List.mem_cons_self _ _
          · intro it hit
            rw [hpσ'] at hit
            cases hit
        · obtain ⟨hiσ', hpσ', _⟩ := hnfσ hb
          obtain ⟨hiτ', hpτ', _⟩ := hnfτ hb
          refine ih (processRow cols meta sid σ r) (processRow cols meta sid τ r)
            ((sid, i) :: K) (delKey (sid, i) F)
            (by rw [hcσ, hcτ]) (by rw [hpσ', hpτ'])
            (by rw [heσ, heτ, hnσ, hempsP]) (by rw [hnσ, hnτ, heσ, hnidP])
            ?_ ?_ ?_ ?_
          · rw [hiσ', hσ, delKey_keep_append]
          · rw [hiτ', hτ, delKey_keep_append]
          · intro it hit
            exact List.mem_cons_of_mem _ (hF it (List.mem_of_mem_filter hit))
          · intro it hit
            rw [hpσ'] at hit
            rcases List.mem_append.mp hit with hit | hit
            · exact List.mem_cons_of_mem _ (hP it hit)
            · obtain ⟨h1, h2⟩ := stageItems_key cols meta sid i r it hit
              have : itKey it = (sid, i) := by unfold itKey; rw [h1, h2]
              rw [this]
              exact List.mem_cons_self _ _

theorem finalFlush_items (σ : LoopSt) :
    (finalFlush σ).cur.items = σ.cur.items ++ σ.pending := by
  unfold finalFlush
  by_cases hp : σ.pending = []
  · rw [if_pos hp, hp, List.append_nil]
  · rw [if_neg hp]

theorem dbExt (a b : DB) (h1 : a.employees = b.employees) (h2 : a.sheets = b.sheets)
    (h3 : a.items = b.items) (h4 : a.meta = b.meta) (h5 : a.nextEmpId = b.nextEmpId)
    (h6 : a.nextSheetId = b.nextSheetId) : a = b := by
  cases a
  cases b
  dsimp only at h1 h2 h3 h4 h5 h6
  rw [h1, h2, h3, h4, h5, h6]

theorem unknownColsOf_meta_eq (a b : DB) (f : Frame) (h : a.meta = b.meta) :
    unknownColsOf a f = unknownColsOf b f := by
  unfold unknownColsOf metaLookup
  rw [h]

/-- Claim C6, confirmed: importing the same (cleaned) dataframe twice in
succession leaves exactly the database state of a single import — the
second import's deletes remove precisely what the first import wrote and the same
items are re-inserted, so nothing is duplicated and no amount differs.  (The
dataframe a given spreadsheet file cleans to is deterministic, so equal files
give equal dataframes.) -/
theorem C6_reimport_idempotent (db : DB) (f : Frame) :
    (importDf (importDf db f none).1 f none).1 = (importDf db f none).1 := by
  by_cases hr0 : f.rows = []
  · have hT : importDf db f none = (db, .noRows) := by
      unfold importDf
      rw [hr0]
    rw [hT]
    dsimp only
    rw [hT]
  · obtain ⟨r0, rest, hr⟩ : ∃ r0 rest, f.rows = r0 :: rest := by
      cases hc : f.rows with
      | nil => exact absurd hc hr0
      | cons a l => exact ⟨a, l, rfl⟩
    by_cases hunk : unknownColsOf db f = []
    case neg =>
      have hT : importDf db f none =
          (db, .unknownItems (unknownColsOf db f)
            (sortStrings (db.meta.map (fun p => p.1)))) := by
        unfold importDf
        rw [hr]
        dsimp only
        rw [if_pos hunk]
      rw [hT]
      dsimp only
      rw [hT]
    case pos =>
      set m := monthValueOf r0 with hm
      set cols := salaryColsOf f with hcols
      set sh := importSheetOf db m with hsh
      set cur0 := importCur0 db m with hcur0
      set σe := runRows cols db.meta sh.sheet_id f.rows ⟨cur0, db, [], 0⟩ with hσe
      have hIB0 : IB1 (⟨cur0, db, [], 0⟩ : LoopSt) := by
        unfold IB1
        simp [batchSize]
      have hT : importDf db f none = ((finalFlush σe).committed,
          .success m (finalFlush σe).cnt) := by
        unfold importDf
        rw [hr]
        dsimp only
        rw [if_neg (by simp [hunk]), runRowsF_none]
        rw [hr] at hσe
        rw [← hσe]
        dsimp only
        rw [if_neg (by decide : ¬(false = true))]
      -- the first import's durable state is either untouched or the final session view
      have hTor : (finalFlush σe).committed = db ∨
          (finalFlush σe).committed = (finalFlush σe).cur := by
        rcases runRows_committed_or_CC cols db.meta sh.sheet_id f.rows
            ⟨cur0, db, [], 0⟩ hIB0 with hcom | hcc
        · by_cases hp : σe.pending = []
          · left
            unfold finalFlush
            rw [if_pos hp]
            exact hcom
          · right
            unfold finalFlush
            rw [if_neg hp]
        · right
          exact finalFlush_CC σe hcc
      rcases hTor with hTdb | hTc
      · -- nothing was committed: the durable state is unchanged, run two is run one
        have hT1 : (importDf db f none).1 = db := by rw [hT]; exact hTdb
        rw [hT1, hT1]
      · -- the durable state is the final session view; run two stays in lockstep
        set T := (finalFlush σe).committed with hTdef
        have hT1 : (importDf db f none).1 = T := by rw [hT]
        -- component equations of T
        have hfrS := runRows_frame cols db.meta sh.sheet_id f.rows ⟨cur0, db, [], 0⟩
        have hffS := finalFlush_frame σe
        have hTemps : T.employees = σe.cur.employees := by
          rw [hTc, hffS.2.2.2.1]
        have hTnid : T.nextEmpId = σe.cur.nextEmpId := by
          rw [hTc, hffS.2.2.2.2]
        have hTsheets : T.sheets = cur0.sheets := by
          rw [hTc, hffS.1, hfrS.1]
        have hTmeta : T.meta = db.meta := by
          rw [hTc, hffS.2.1, hfrS.2.1]
          exact (importCur0_frame db m).2.2.1
        have hTnsid : T.nextSheetId = cur0.nextSheetId := by
          rw [hTc, hffS.2.2.1, hfrS.2.2]
        have hTitems : T.items = σe.cur.items ++ σe.pending := by
          rw [hTc, finalFlush_items]
        -- the second run resolves the same sheet
        have hfind2 : T.sheets.find? (fun s => s.month_year = m) = some sh := by
          rw [hTsheets, hcur0]
          unfold importCur0
          cases hs : db.sheets.find? (fun s => s.month_year = m) with
          | some s =>
              dsimp only
              rw [hs]
              rw [hsh]
              unfold importSheetOf
              rw [hs]
          | none =>
              dsimp only
              rw [List.find?_append, hs]
              have hsheq : importSheetOf db m =
                  ⟨db.nextSheetId, m, none, none, false⟩ := by
                unfold importSheetOf
                rw [hs]
              rw [hsh, hsheq]
              simp [List.find?]
        have hsh2 : importSheetOf T m = sh := by
          unfold importSheetOf
          rw [hfind2]
        have hcur2 : importCur0 T m = T := by
          unfold importCur0
          rw [hfind2]
        have hunk2 : unknownColsOf T f = [] := by
          rw [unknownColsOf_meta_eq T db f hTmeta]
          exact hunk
        set τe := runRows cols T.meta sh.sheet_id f.rows ⟨T, T, [], 0⟩ with hτe
        have hT2 : importDf T f none = ((finalFlush τe).committed,
            .success m (finalFlush τe).cnt) := by
          unfold importDf
          rw [hr]
          dsimp only
          rw [if_neg (by simp [hunk2]), runRowsF_none]
          rw [hsh2, hcur2]
          rw [hr] at hτe
          rw [← hτe]
          dsimp only
          rw [if_neg (by decide : ¬(false = true))]
        have hτe' : τe = runRows cols db.meta sh.sheet_id f.rows ⟨T, T, [], 0⟩ := by
          rw [hτe, hTmeta]
        -- the paired run
        have hemps0 : (⟨T, T, [], 0⟩ : LoopSt).cur.employees =
            (⟨cur0, db, [], 0⟩ : LoopSt).cur.employees ++
              newEmps (⟨cur0, db, [], 0⟩ : LoopSt).cur.employees
                (⟨cur0, db, [], 0⟩ : LoopSt).cur.nextEmpId f.rows := by
          show T.employees = cur0.employees ++ newEmps cur0.employees cur0.nextEmpId f.rows
          rw [hTemps, hσe]
          exact (runRows_employees cols db.meta sh.sheet_id f.rows
            ⟨cur0, db, [], 0⟩).1
        have hnid0 : (⟨T, T, [], 0⟩ : LoopSt).cur.nextEmpId =
            (⟨cur0, db, [], 0⟩ : LoopSt).cur.nextEmpId +
              (newEmps (⟨cur0, db, [], 0⟩ : LoopSt).cur.employees
                (⟨cur0, db, [], 0⟩ : LoopSt).cur.nextEmpId f.rows).length := by
          show T.nextEmpId = cur0.nextEmpId + _
          rw [hTnid, hσe]
          exact (runRows_employees cols db.meta sh.sheet_id f.rows
            ⟨cur0, db, [], 0⟩).2
        obtain ⟨K', F', hι1, hι2, hFK, hPK, hc2, hp2, he2, hn2⟩ :=
          pairRun cols db.meta sh.sheet_id db.items T.items f.rows
            ⟨cur0, db, [], 0⟩ ⟨T, T, [], 0⟩ [] []
            rfl rfl hemps0 hnid0
            (by
              show cur0.items = keepKeys [] db.items ++ []
              rw [keepKeys_nil, List.append_nil]
              exact (importCur0_frame db m).2.1)
            (by
              show T.items = keepKeys [] T.items ++ []
              rw [keepKeys_nil, List.append_nil])
            (by intro it hit; cases hit)
            (by intro it hit; cases hit)
        rw [← hσe] at hι1 hPK hc2 hp2 he2 hn2
        rw [← hτe'] at hι2 hc2 hp2 he2 hn2
        -- run two commits its final view
        have hCC2 : (finalFlush τe).committed = (finalFlush τe).cur := by
          apply finalFlush_CC
          rw [hτe']
          apply runRows_IB1_CC cols db.meta sh.sheet_id f.rows ⟨T, T, [], 0⟩
          · unfold IB1
            simp [batchSize]
          · exact Or.inr rfl
        -- and that view is exactly T again
        have hTitems' : T.items = keepKeys K' db.items ++ (F' ++ σe.pending) := by
          rw [hTitems, hι1, List.append_assoc]
        have hgoal2 : (finalFlush τe).cur = T := by
          apply dbExt
          · rw [(finalFlush_frame τe).2.2.2.1, he2, ← hTemps]
          · rw [(finalFlush_frame τe).1]
            have : τe.cur.sheets = T.sheets := by
              rw [hτe']
              exact (runRows_frame cols db.meta sh.sheet_id f.rows ⟨T, T, [], 0⟩).1
            rw [this]
          · rw [finalFlush_items, hι2, hp2, hTitems']
            rw [keepKeys_append, keepKeys_idem,
              keepKeys_of_all_mem K' (F' ++ σe.pending)
                (by
                  intro it hit
                  rcases List.mem_append.mp hit with hit | hit
                  · exact hFK it hit
                  · exact hPK it hit),
              List.append_nil, List.append_assoc]
          · rw [(finalFlush_frame τe).2.1]
            have : τe.cur.meta = T.meta := by
              rw [hτe']
              exact (runRows_frame cols db.meta sh.sheet_id f.rows ⟨T, T, [], 0⟩).2.1
            rw [this]
          · rw [(finalFlush_frame τe).2.2.2.2, hn2, ← hTnid]
          · rw [(finalFlush_frame τe).2.2.1]
            have : τe.cur.nextSheetId = T.nextSheetId := by
              rw [hτe']
              exact (runRows_frame cols db.meta sh.sheet_id f.rows ⟨T, T, [], 0⟩).2.2
            rw [this]
        rw [hT1, hT2]
        dsimp only
        rw [hCC2, hgoal2]

end Payslip
